import Mathlib

/-!
# event_bus_go: the fan-in result aggregator of `eventBusExtension.OnCmd`

A shallow embedding of `packages/example_extensions/event_bus_go/event_bus_extension.go`
(namespace `EventBus`), followed by `getMaxGeminiWorkerCount` of
`ai_agents/server/internal/config.go` (namespace `Config`) and
`defaultApp.OnConfigure` of `packages/example_apps/transcriber_demo/main.go`
(namespace `TranscriberDemo`).

* The values that travel as JSON (`Json`, `JObj`) are the decoded Go values
  (`interface{}` trees, `map[string]interface{}`).
* The closure that `OnCmd` hands to `SendCmdEx` becomes the function `callback`
  over an explicit `CallbackState` holding the variables the closure captures
  and mutates (`hasReturnedResult`, `cmdResultMerged`, `cmdResult`).
* Calls of `tenEnv.ReturnResult` and `tenEnv.SendCmdEx` are recorded as effects,
  in program order.  Log calls have no influence on control flow and are left out.
* Deliveries are handed to the callback one at a time by `deliver`; `interleave`
  runs several invocations with the check of line 58 and the rest of the body as
  separate steps.
-/

namespace EventBus

/-! ## JSON values -/

mutual
/-- A decoded JSON value, as `encoding/json` stores it in an `interface{}`.
Numbers stand for the decoded numeric value. -/
inductive Json where
  | null
  | bool (b : Bool)
  | num (n : Int)
  | str (s : String)
  | arr (items : JArr)
  | obj (fields : JObj)
  deriving DecidableEq, Repr
/-- A decoded JSON array (`[]interface{}`). -/
inductive JArr where
  | nil
  | cons (head : Json) (tail : JArr)
  deriving DecidableEq, Repr
/-- A `map[string]interface{}`, kept as an association list.  The map it
denotes is given by `JObj.find`: the first entry of a key is the one that counts. -/
inductive JObj where
  | nil
  | cons (key : String) (value : Json) (rest : JObj)
  deriving DecidableEq, Repr
end

/-- Map lookup `m[k]`. -/
def JObj.find (k : String) : JObj → Option Json
  | .nil => none
  | .cons k' v rest => if k' = k then some v else rest.find k

/-- Map assignment `m[k] = v`. -/
def JObj.set (k : String) (v : Json) : JObj → JObj
  | .nil => .cons k v .nil
  | .cons k' v' rest => if k' = k then .cons k v rest else .cons k' v' (rest.set k v)

/-- A payload is flat when none of its values is itself an object. -/
def JObj.flat : JObj → Bool
  | .nil => true
  | .cons _ (.obj _) _ => false
  | .cons _ _ rest => rest.flat

/-- The bytes of a JSON text, represented by the value they decode to;
`none` stands for bytes that are not a JSON text. -/
abbrev JSONBytes := Option Json

/-! ## The libraries the callback calls -/

/-- Modelled from the spec: `mergo.Merge(&dst, src, mergo.WithOverride)` is library
code that is not part of the sources.  For every key of the arriving map the
arriving value replaces the stored one (spec 3 and 4.1: last writer wins per key);
the one case that goes beyond key replacement is that, when the stored and the
arriving value of a key are both objects, the library merges the two objects by
the same rule.  Each key of `src` is applied once, against the value `dst` held
before the call. -/
def mergoMerge (dst : JObj) : JObj → JObj
  | .nil => dst
  | .cons k v rest =>
    let merged := mergoMerge dst rest
    match v, dst.find k with
    | .obj s, some (.obj d) => merged.set k (.obj (mergoMerge d s))
    | _, _ => merged.set k v

/-- The call `json.Unmarshal(result, &cmdResultMap)` with `cmdResultMap` a
`map[string]interface{}`: an object decodes to its map, `null` leaves an empty
map, every other JSON value and every non-JSON text is an error. -/
def jsonUnmarshal : JSONBytes → Except String JObj
  | some (.obj m) => .ok m
  | some .null => .ok .nil
  | some _ => .error "json: cannot unmarshal into Go value of type map[string]interface"
  | none => .error "invalid character"

/-- The call `json.Marshal(cmdResultMerged)` on a map of decoded JSON values. -/
def jsonMarshal (m : JObj) : Except String JSONBytes :=
  .ok (some (.obj m))

/-- The three library calls of the callback.  `merge` returns the contents of
the destination map after the call together with the error it reports. -/
structure Lib where
  unmarshal : JSONBytes → Except String JObj
  merge : JObj → JObj → JObj × Option String
  marshal : JObj → Except String JSONBytes

/-- The libraries the extension is built with: `encoding/json` and `mergo`. -/
def goLib : Lib where
  unmarshal := jsonUnmarshal
  merge := fun dst src => (mergoMerge dst src, none)
  marshal := jsonMarshal

/-! ## Runtime objects -/

/-- The status code of a result (`ten.StatusCodeOk`, `ten.StatusCodeError`). -/
inductive StatusCode where
  | StatusCodeOk
  | StatusCodeError
  deriving DecidableEq, Repr

/-- The error code of a `ten.TenError`; only `ErrorCodeMsgNotConnected` is
told apart by the extension. -/
inductive ErrorCode where
  | ErrorCodeMsgNotConnected
  | ErrorCodeOther (code : Nat)
  deriving DecidableEq, Repr

/-- A Go `error` value as the callback inspects it: a `*ten.TenError`, or an
error of any other dynamic type. -/
inductive GoError where
  | TenError (code : ErrorCode) (msg : String)
  | otherError (msg : String)
  deriving DecidableEq, Repr

/-- A command object: the runtime object the Go value refers to (`handle`), what
`GetName` returns, and its properties.  Two command objects are the same object
exactly when their handles are equal. -/
structure Cmd where
  handle : Nat
  GetName : Except String String
  property : Json

/-- Modelled from the spec: `cmd.Clone()` is runtime code that is not part of the
sources.  Spec 3: the command is immutable once received and a request-scoped
copy is sent downstream.  The copy is a new object, that is, an object with a
handle the original does not have (here the next one), with the name and the
properties of the original. -/
def Cmd.Clone (cmd : Cmd) : Cmd :=
  { handle := cmd.handle + 1, GetName := cmd.GetName, property := cmd.property }

/-- A result object owned by the extension: the status it was created with, the
command it was created from, and the root property written through
`SetPropertyFromJSONBytes` (`none` while the extension has written nothing). -/
structure CmdResult where
  statusCode : StatusCode
  cmd : Cmd
  property : Option Json

/-- The constructor `ten.NewCmdResult(statusCode, cmd)`. -/
def NewCmdResult (statusCode : StatusCode) (cmd : Cmd) : CmdResult :=
  { statusCode := statusCode, cmd := cmd, property := none }

/-- The call `cmdResult.SetPropertyFromJSONBytes("", bytes)`: the root property
becomes the decoded value; bytes that are not JSON leave the result as it was
(the error is not looked at by the caller). -/
def CmdResult.SetPropertyFromJSONBytes (r : CmdResult) : JSONBytes → CmdResult
  | some j => { r with property := some j }
  | none => r

/-- Modelled from the spec: what a requester reads as the properties of a reply is
decided by `ten.NewCmdResult` and the runtime, which are not part of the sources.
A reply whose root property was written carries that value; a reply built from a
command and never written echoes the original command (spec 4.3 rule 1, spec 7
and spec 8: the properties equal the original command's properties unchanged). -/
def CmdResult.GetProperty (r : CmdResult) : Json :=
  match r.property with
  | some j => j
  | none => r.cmd.property

/-- A result `cr` delivered by the downstream target, seen through the three
accessors the callback uses. -/
structure DeliveredResult where
  GetStatusCode : Except String StatusCode
  GetPropertyToJSONBytes : Except String JSONBytes
  IsCompleted : Bool

/-- One invocation of the callback: either `er != nil` (a transport failure) or a
result `cr`. -/
inductive Delivery where
  | failure (er : GoError)
  | result (cr : DeliveredResult)

/-! ## The callback of the `ten_event` case -/

/-- The variables captured and mutated by the closure passed to `SendCmdEx`. -/
structure CallbackState where
  hasReturnedResult : Bool
  cmdResultMerged : JObj
  cmdResult : CmdResult

/-- One run of the closure `func(te ten.TenEnv, cr ten.CmdResult, er error)`
(lines 57 to 186).  Returns the state after the run and the results passed to
`tenEnv.ReturnResult` during it. -/
def callback (L : Lib) (cmd : Cmd) (s : CallbackState) (d : Delivery) :
    CallbackState × List CmdResult :=
  if s.hasReturnedResult then
    (s, [])
  else
    match d with
    | .failure (.otherError _) =>
      ({ s with hasReturnedResult := true }, [NewCmdResult .StatusCodeError cmd])
    | .failure (.TenError code _) =>
      if code = .ErrorCodeMsgNotConnected then
        ({ s with hasReturnedResult := true }, [s.cmdResult])
      else
        ({ s with hasReturnedResult := true }, [NewCmdResult .StatusCodeError cmd])
    | .result cr =>
      match cr.GetStatusCode with
      | .error _ =>
        ({ s with hasReturnedResult := true }, [NewCmdResult .StatusCodeError cmd])
      | .ok code =>
        match cr.GetPropertyToJSONBytes with
        | .error _ =>
          ({ s with hasReturnedResult := true }, [NewCmdResult .StatusCodeError cmd])
        | .ok result =>
          if code ≠ .StatusCodeOk then
            ({ s with hasReturnedResult := true }, [s.cmdResult])
          else
            match L.unmarshal result with
            | .error _ =>
              ({ s with hasReturnedResult := true }, [NewCmdResult .StatusCodeError cmd])
            | .ok cmdResultMap =>
              match L.merge s.cmdResultMerged cmdResultMap with
              | (merged, some _) =>
                ({ s with cmdResultMerged := merged }, [NewCmdResult .StatusCodeError cmd])
              | (merged, none) =>
                if cr.IsCompleted then
                  match L.marshal merged with
                  | .error _ =>
                    ({ s with cmdResultMerged := merged, hasReturnedResult := true },
                      [NewCmdResult .StatusCodeError cmd])
                  | .ok cmdResultMergedBytes =>
                    let r := s.cmdResult.SetPropertyFromJSONBytes cmdResultMergedBytes
                    ({ hasReturnedResult := true, cmdResultMerged := merged, cmdResult := r },
                      [r])
                else
                  ({ s with cmdResultMerged := merged }, [])

/-- The callback run on a sequence of deliveries, one at a time; the replies are
collected in the order they were sent. -/
def deliver (L : Lib) (cmd : Cmd) : CallbackState → List Delivery →
    CallbackState × List CmdResult
  | s, [] => (s, [])
  | s, d :: ds =>
    let step := callback L cmd s d
    let tail := deliver L cmd step.1 ds
    (tail.1, step.2 ++ tail.2)

/-! ## OnCmd -/

/-- The only command name that is forwarded. -/
def cmdTenEvent : String := "ten_event"

/-- A call on `tenEnv` made by the extension. -/
inductive Effect where
  | ReturnResult (r : CmdResult)
  | SendCmdEx (c : Cmd)

/-- What one call of `OnCmd` leaves behind: the calls it made on `tenEnv`, and
the state of the closure it registered (`none` when no closure was created). -/
structure OnCmdOutcome where
  effects : List Effect
  request : Option CallbackState

/-- The variables of the `ten_event` case as they are right before `SendCmdEx`
is called (lines 52 to 56). -/
def freshState (cmd : Cmd) : CallbackState :=
  { hasReturnedResult := false
    cmdResultMerged := .nil
    cmdResult := NewCmdResult .StatusCodeOk cmd }

/-- The method `eventBusExtension.OnCmd`.  `sendErr` is what `tenEnv.SendCmdEx`
returns to its caller (`none` for a nil error). -/
def OnCmd (cmd : Cmd) (sendErr : Option GoError) : OnCmdOutcome :=
  match cmd.GetName with
  | .error _ =>
    { effects := [.ReturnResult (NewCmdResult .StatusCodeError cmd)], request := none }
  | .ok cmdName =>
    if cmdName = cmdTenEvent then
      let s := freshState cmd
      let cmdCopy := cmd.Clone
      match sendErr with
      | none =>
        { effects := [.SendCmdEx cmdCopy], request := some s }
      | some _ =>
        { effects := [.SendCmdEx cmdCopy, .ReturnResult (NewCmdResult .StatusCodeError cmd)]
          request := some { s with hasReturnedResult := true } }
    else
      { effects := [.ReturnResult (NewCmdResult .StatusCodeError cmd)], request := none }

/-- The replies among a list of effects. -/
def replies : List Effect → List CmdResult
  | [] => []
  | .ReturnResult r :: es => r :: replies es
  | .SendCmdEx _ :: es => replies es

/-- The forwarded commands among a list of effects. -/
def forwards : List Effect → List Cmd
  | [] => []
  | .ReturnResult _ :: es => forwards es
  | .SendCmdEx c :: es => c :: forwards es

/-- Everything the extension does for one inbound command: `OnCmd`, then the
deliveries the runtime hands to the registered callback. -/
def session (L : Lib) (cmd : Cmd) (sendErr : Option GoError) (ds : List Delivery) :
    List Effect :=
  let o := OnCmd cmd sendErr
  match o.request with
  | none => o.effects
  | some s => o.effects ++ (deliver L cmd s ds).2.map Effect.ReturnResult

/-! ## Inputs used in the statements -/

/-- An `Ok` result whose payload is the JSON object `m`; `completed` is what
`IsCompleted` returns. -/
def okResult (completed : Bool) (m : JObj) : Delivery :=
  .result { GetStatusCode := .ok .StatusCodeOk
            GetPropertyToJSONBytes := .ok (some (.obj m))
            IsCompleted := completed }

/-- A terminating delivery: a transport failure, a result with a status other
than `Ok`, or an `Ok` result marked completed. -/
def Delivery.terminating : Delivery → Bool
  | .failure _ => true
  | .result cr =>
    match cr.GetStatusCode with
    | .ok .StatusCodeOk => cr.IsCompleted
    | .ok .StatusCodeError => true
    | .error _ => false

/-- The command of `BasicExtensionTester.OnStart`. -/
def basicCmd : Cmd :=
  { handle := 1
    GetName := .ok "ten_event"
    property := .obj (.cons "test_data" (.str "basic_test") .nil) }

/-- First partial payload of `BasicExtensionTester.OnCmd`. -/
def partialPayload : JObj :=
  .cons "response" (.str "partial_1") (.cons "data_part_1" (.str "value1") .nil)

/-- Final payload of `BasicExtensionTester.OnCmd`. -/
def finalPayload : JObj :=
  .cons "response" (.str "final") (.cons "data_part_3" (.str "value3") .nil)

/-- The error result of `ErrorHandlingTester.OnCmd`, scenario 1: status `Error`,
marked final, carrying an `error` field. -/
def errorDelivery : Delivery :=
  .result { GetStatusCode := .ok .StatusCodeError
            GetPropertyToJSONBytes := .ok (some (.obj (.cons "error" (.str "simulated_error") .nil)))
            IsCompleted := true }

/-- A command with a name the extension does not forward. -/
def otherCmd : Cmd :=
  { handle := 1, GetName := .ok "flush", property := .obj .nil }

/-- An `Ok` result whose payload is the byte string `bytes`; `completed` is what
`IsCompleted` returns. -/
def okBytes (completed : Bool) (bytes : JSONBytes) : Delivery :=
  .result { GetStatusCode := .ok .StatusCodeOk
            GetPropertyToJSONBytes := .ok bytes
            IsCompleted := completed }

/-- The keys of a map, in list order. -/
def JObj.keys : JObj → List String
  | .nil => []
  | .cons k _ rest => k :: rest.keys

/-- A payload none of whose values is `null`. -/
def JObj.noNull : JObj → Bool
  | .nil => true
  | .cons _ .null _ => false
  | .cons _ _ rest => rest.noNull

/-- A delivery that is a transport failure or a result whose status was read and
is not `Ok`. -/
def Delivery.failureOrNonOk : Delivery → Bool
  | .failure _ => true
  | .result cr =>
    match cr.GetStatusCode with
    | .ok .StatusCodeError => true
    | _ => false

/-- The serialization failures of one run of the callback on the result `cr` in
state `s`, in the order the callback meets them: the status code cannot be read;
the properties cannot be read; the payload of an `Ok` result cannot be
unmarshalled into a map; the merge reports an error; the result is completed and
the merged map cannot be marshalled. -/
def serializationFailure (L : Lib) (s : CallbackState) (cr : DeliveredResult) : Prop :=
  (∃ e, cr.GetStatusCode = .error e) ∨
  (∃ c e, cr.GetStatusCode = .ok c ∧ cr.GetPropertyToJSONBytes = .error e) ∨
  (∃ b e, cr.GetStatusCode = .ok .StatusCodeOk ∧ cr.GetPropertyToJSONBytes = .ok b ∧
    L.unmarshal b = .error e) ∨
  (∃ b m e, cr.GetStatusCode = .ok .StatusCodeOk ∧ cr.GetPropertyToJSONBytes = .ok b ∧
    L.unmarshal b = .ok m ∧ (L.merge s.cmdResultMerged m).2 = some e) ∨
  (∃ b m e, cr.GetStatusCode = .ok .StatusCodeOk ∧ cr.GetPropertyToJSONBytes = .ok b ∧
    L.unmarshal b = .ok m ∧ (L.merge s.cmdResultMerged m).2 = none ∧
    cr.IsCompleted = true ∧ L.marshal (L.merge s.cmdResultMerged m).1 = .error e)

/-- A library whose merge reports an error and leaves the destination as it was;
the other two calls are those of `goLib`. -/
def failingMergeLib : Lib where
  unmarshal := jsonUnmarshal
  merge := fun dst _ => (dst, some "merge failed")
  marshal := jsonMarshal

/-- The payload of the partial result number `i` of `MergeLogicTester.OnCmd`. -/
def mergePartial (i : Nat) : JObj :=
  .cons (String.append "field_" (toString i)) (.str (String.append "value_" (toString i)))
    (.cons "counter" (.num i) .nil)

/-- The payload of the final result of `MergeLogicTester.OnCmd`. -/
def mergeFinal : JObj :=
  .cons "status" (.str "all_merged") (.cons "total_parts" (.num 5) .nil)

/-- The keys of the root property written on a reply (none when nothing, or
something that is not an object, was written). -/
def CmdResult.keys (r : CmdResult) : List String :=
  match r.property with
  | some (.obj m) => m.keys
  | _ => []

/-- The value that `mergo.Merge` stores under a key: the arriving value `v`, or,
when `v` and the stored value `old` are both objects, their merge. -/
def mergeValue (old : Option Json) (v : Json) : Json :=
  match v, old with
  | .obj s, some (.obj d) => .obj (mergoMerge d s)
  | _, _ => v

/-- A value that changes nothing when it is merged over itself, or over the
result of its own merge. -/
def Json.settled (v : Json) : Prop :=
  mergeValue (some v) v = v ∧
    ∀ old, mergeValue (some (mergeValue old v)) v = mergeValue old v

/-- An association list that is a Go map as it stands: no key occurs twice, in
the list and in every object that `mergo.Merge` reaches below it (the objects
stored directly under a key). -/
def JObj.wellFormed : JObj → Bool
  | .nil => true
  | .cons k (.obj o) rest => !(decide (k ∈ rest.keys)) && o.wellFormed && rest.wellFormed
  | .cons k _ rest => !(decide (k ∈ rest.keys)) && rest.wellFormed

/-- Two payloads with no key in common. -/
def JObj.keyDisjoint (a b : JObj) : Prop :=
  ∀ k, k ∈ a.keys → k ∉ b.keys

/-- A command whose name cannot be read. -/
def namelessCmd : Cmd :=
  { handle := 1, GetName := .error "get name failed", property := .obj .nil }

/-! ## The variables of all requests

The variables `cmdResult`, `cmdResultMerged` and `hasReturnedResult` are declared
inside the `ten_event` case of `OnCmd` (lines 52 to 56), so every execution of that
case declares new ones, and the closure it creates refers to the ones of its own
execution.  Below, the variables of all executions are kept in one list of frames;
a closure is known by the position of its frame. -/

/-- The variables declared by one execution of the `ten_event` case and captured
by the closure it creates, with the command of that execution. -/
structure Frame where
  cmd : Cmd
  hasReturnedResult : Bool
  cmdResultMerged : JObj
  cmdResult : CmdResult

/-- The variables of a frame as one state of the callback. -/
def Frame.vars (f : Frame) : CallbackState :=
  { hasReturnedResult := f.hasReturnedResult
    cmdResultMerged := f.cmdResultMerged
    cmdResult := f.cmdResult }

/-- The frame `f` with its variables replaced by those of the state `s`. -/
def Frame.withVars (f : Frame) (s : CallbackState) : Frame :=
  { cmd := f.cmd
    hasReturnedResult := s.hasReturnedResult
    cmdResultMerged := s.cmdResultMerged
    cmdResult := s.cmdResult }

/-- The method `OnCmd` acting on the frames of all requests.  The `ten_event`
case declares its variables in a new frame, after the frames that exist; the
other paths declare none.  Returns the frames and the calls made on `tenEnv`. -/
def OnCmdIn (fs : List Frame) (cmd : Cmd) (sendErr : Option GoError) :
    List Frame × List Effect :=
  match cmd.GetName with
  | .error _ => (fs, [.ReturnResult (NewCmdResult .StatusCodeError cmd)])
  | .ok cmdName =>
    if cmdName = cmdTenEvent then
      let cmdResult := NewCmdResult .StatusCodeOk cmd
      let cmdCopy := cmd.Clone
      match sendErr with
      | none =>
        (fs ++ [{ cmd := cmd, hasReturnedResult := false, cmdResultMerged := .nil,
                  cmdResult := cmdResult }],
          [.SendCmdEx cmdCopy])
      | some _ =>
        (fs ++ [{ cmd := cmd, hasReturnedResult := true, cmdResultMerged := .nil,
                  cmdResult := cmdResult }],
          [.SendCmdEx cmdCopy, .ReturnResult (NewCmdResult .StatusCodeError cmd)])
    else
      (fs, [.ReturnResult (NewCmdResult .StatusCodeError cmd)])

/-- One run of the closure whose variables are in frame number `a` (lines 57 to
186), acting on the frames of all requests: every read and every write of a
captured variable goes to frame `a`. -/
def callbackIn (L : Lib) (a : Nat) (fs : List Frame) (d : Delivery) :
    List Frame × List CmdResult :=
  match fs[a]? with
  | none => (fs, [])
  | some f =>
    if f.hasReturnedResult then
      (fs, [])
    else
      match d with
      | .failure (.otherError _) =>
        (fs.set a { f with hasReturnedResult := true }, [NewCmdResult .StatusCodeError f.cmd])
      | .failure (.TenError code _) =>
        if code = .ErrorCodeMsgNotConnected then
          (fs.set a { f with hasReturnedResult := true }, [f.cmdResult])
        else
          (fs.set a { f with hasReturnedResult := true },
            [NewCmdResult .StatusCodeError f.cmd])
      | .result cr =>
        match cr.GetStatusCode with
        | .error _ =>
          (fs.set a { f with hasReturnedResult := true },
            [NewCmdResult .StatusCodeError f.cmd])
        | .ok code =>
          match cr.GetPropertyToJSONBytes with
          | .error _ =>
            (fs.set a { f with hasReturnedResult := true },
              [NewCmdResult .StatusCodeError f.cmd])
          | .ok result =>
            if code ≠ .StatusCodeOk then
              (fs.set a { f with hasReturnedResult := true }, [f.cmdResult])
            else
              match L.unmarshal result with
              | .error _ =>
                (fs.set a { f with hasReturnedResult := true },
                  [NewCmdResult .StatusCodeError f.cmd])
              | .ok cmdResultMap =>
                match L.merge f.cmdResultMerged cmdResultMap with
                | (merged, some _) =>
                  (fs.set a { f with cmdResultMerged := merged },
                    [NewCmdResult .StatusCodeError f.cmd])
                | (merged, none) =>
                  if cr.IsCompleted then
                    match L.marshal merged with
                    | .error _ =>
                      (fs.set a { f with cmdResultMerged := merged, hasReturnedResult := true },
                        [NewCmdResult .StatusCodeError f.cmd])
                    | .ok cmdResultMergedBytes =>
                      let r := f.cmdResult.SetPropertyFromJSONBytes cmdResultMergedBytes
                      (fs.set a { f with hasReturnedResult := true, cmdResultMerged := merged,
                                         cmdResult := r },
                        [r])
                  else
                    (fs.set a { f with cmdResultMerged := merged }, [])

/-- The runtime hands the deliveries `xs` to closures one at a time: `(a, d)` is
the delivery `d` to the closure of frame `a`.  Returns the frames and the
replies, each with the frame of the closure that sent it. -/
def runDeliveries (L : Lib) : List Frame → List (Nat × Delivery) →
    List Frame × List (Nat × CmdResult)
  | fs, [] => (fs, [])
  | fs, (a, d) :: xs =>
    let out := callbackIn L a fs d
    let tail := runDeliveries L out.1 xs
    (tail.1, out.2.map (fun r => (a, r)) ++ tail.2)

/-- The deliveries of `xs` that go to the closure of frame `a`. -/
def deliveriesTo (a : Nat) : List (Nat × Delivery) → List Delivery
  | [] => []
  | (b, d) :: xs => if b = a then d :: deliveriesTo a xs else deliveriesTo a xs

/-- The replies of `rs` sent by the closure of frame `a`. -/
def repliesOf (a : Nat) : List (Nat × CmdResult) → List CmdResult
  | [] => []
  | (b, r) :: rs => if b = a then r :: repliesOf a rs else repliesOf a rs

/-- A second command named `ten_event`, another object than `basicCmd`. -/
def secondCmd : Cmd :=
  { handle := 3
    GetName := .ok "ten_event"
    property := .obj (.cons "test_type" (.str "merge_logic") .nil) }

/-! ## Concurrent invocations of the callback

The closure reads `hasReturnedResult` at line 58 and writes it, if at all, in a
later statement; no lock or atomic operation is used.  Two invocations that run
concurrently can therefore both execute line 58 before either reaches its
assignment.  The steps below interleave invocations at exactly that point: the
check of line 58 is one step, the rest of the body is another. -/

/-- Where one invocation of the closure stands: before the check of line 58,
past the check having read `hasReturnedResult` as false, or returned. -/
inductive Pc where
  | atGuard
  | pastGuard
  | returned
  deriving DecidableEq, Repr

/-- The body of the closure after the check (lines 64 to 185), run by an
invocation that has read `hasReturnedResult` as false at line 58.  The body does
not read the variable again and every assignment to it stores `true`. -/
def afterGuard (L : Lib) (cmd : Cmd) (s : CallbackState) (d : Delivery) :
    CallbackState × List CmdResult :=
  let out := callback L cmd { s with hasReturnedResult := false } d
  ({ out.1 with hasReturnedResult := s.hasReturnedResult || out.1.hasReturnedResult }, out.2)

/-- Invocations of the closure of one request that run concurrently: the captured
variables they share, the position of each invocation, and the replies sent so
far. -/
structure Concurrent where
  shared : CallbackState
  pcs : List Pc
  sent : List CmdResult

/-- One scheduling step: invocation number `i`, which was called with the
delivery number `i` of `ds`, runs its next part. -/
def Concurrent.step (L : Lib) (cmd : Cmd) (ds : List Delivery) (c : Concurrent) (i : Nat) :
    Concurrent :=
  match c.pcs[i]?, ds[i]? with
  | some .atGuard, some _ =>
    if c.shared.hasReturnedResult then
      { c with pcs := c.pcs.set i .returned }
    else
      { c with pcs := c.pcs.set i .pastGuard }
  | some .pastGuard, some d =>
    let out := afterGuard L cmd c.shared d
    { shared := out.1, pcs := c.pcs.set i .returned, sent := c.sent ++ out.2 }
  | _, _ => c

/-- The invocations for the deliveries `ds`, all started on a fresh request and
run in the order given by `schedule`. -/
def interleave (L : Lib) (cmd : Cmd) (ds : List Delivery) (schedule : List Nat) : Concurrent :=
  schedule.foldl (Concurrent.step L cmd ds)
    { shared := freshState cmd, pcs := ds.map (fun _ => Pc.atGuard), sent := [] }

/-! ## Concurrent merges into the map of one request

The call `mergo.Merge(&cmdResultMerged, cmdResultMap, ...)` of line 149 writes the
map captured by the closure and the call `json.Marshal(cmdResultMerged)` of line
162 reads it; the closure takes no lock around either call.  The steps below add
two program points to the ones of `Pc`: an invocation that has entered the call
of line 149 and has not left it, and an invocation that has entered the call of
line 162 and has not left it. -/

/-- Where one invocation of the closure stands: before the check of line 58, past
the check, inside the call of `mergo.Merge` at line 149, inside the call of
`json.Marshal` at line 162, or returned. -/
inductive Point where
  | atGuard
  | pastGuard
  | inMerge
  | inMarshal
  | returned
  deriving DecidableEq, Repr

/-- The local map `cmdResultMap` with which an invocation that has passed line 58
reaches the call of line 149 (lines 64 to 148: a nil error, a readable status
code, readable properties, the status `Ok` and properties that decode); `none`
when the invocation returns before line 149. -/
def mergeArgument (L : Lib) (d : Delivery) : Option JObj :=
  match d with
  | .failure _ => none
  | .result cr =>
    match cr.GetStatusCode with
    | .error _ => none
    | .ok code =>
      match cr.GetPropertyToJSONBytes with
      | .error _ => none
      | .ok result =>
        if code ≠ .StatusCodeOk then
          none
        else
          match L.unmarshal result with
          | .error _ => none
          | .ok cmdResultMap => some cmdResultMap

/-- What `cr.IsCompleted()` returns at line 160 (false for a delivery without a
result, which does not reach that line). -/
def Delivery.isCompleted : Delivery → Bool
  | .failure _ => false
  | .result cr => cr.IsCompleted

/-- Invocations of the closure of one request that run concurrently, with the
program points inside the two calls that use the captured map. -/
structure ConcurrentMerge where
  shared : CallbackState
  points : List Point
  sent : List CmdResult

/-- One scheduling step: invocation number `i`, which was called with the
delivery number `i` of `ds`, runs up to its next program point.  Entering the
call of line 149 or of line 162 depends on nothing but the invocation itself; the
call of line 149 stores its result when it is left, the call of line 162 reads
the map when it is left. -/
def ConcurrentMerge.step (L : Lib) (cmd : Cmd) (ds : List Delivery) (c : ConcurrentMerge)
    (i : Nat) : ConcurrentMerge :=
  match c.points[i]?, ds[i]? with
  | some .atGuard, some _ =>
    if c.shared.hasReturnedResult then
      { c with points := c.points.set i .returned }
    else
      { c with points := c.points.set i .pastGuard }
  | some .pastGuard, some d =>
    match mergeArgument L d with
    | none =>
      let out := afterGuard L cmd c.shared d
      { shared := out.1, points := c.points.set i .returned, sent := c.sent ++ out.2 }
    | some _ => { c with points := c.points.set i .inMerge }
  | some .inMerge, some d =>
    match mergeArgument L d with
    | none => c
    | some cmdResultMap =>
      match L.merge c.shared.cmdResultMerged cmdResultMap with
      | (merged, some _) =>
        { shared := { c.shared with cmdResultMerged := merged }
          points := c.points.set i .returned
          sent := c.sent ++ [NewCmdResult .StatusCodeError cmd] }
      | (merged, none) =>
        if d.isCompleted then
          { c with shared := { c.shared with cmdResultMerged := merged }
                   points := c.points.set i .inMarshal }
        else
          { c with shared := { c.shared with cmdResultMerged := merged }
                   points := c.points.set i .returned }
  | some .inMarshal, some _ =>
    match L.marshal c.shared.cmdResultMerged with
    | .error _ =>
      { shared := { c.shared with hasReturnedResult := true }
        points := c.points.set i .returned
        sent := c.sent ++ [NewCmdResult .StatusCodeError cmd] }
    | .ok cmdResultMergedBytes =>
      let r := c.shared.cmdResult.SetPropertyFromJSONBytes cmdResultMergedBytes
      { shared := { c.shared with hasReturnedResult := true, cmdResult := r }
        points := c.points.set i .returned
        sent := c.sent ++ [r] }
  | _, _ => c

/-- The invocations for the deliveries `ds`, all started on a fresh request and
run in the order given by `schedule`, with the program points inside the calls
that use the map. -/
def interleaveMerge (L : Lib) (cmd : Cmd) (ds : List Delivery) (schedule : List Nat) :
    ConcurrentMerge :=
  schedule.foldl (ConcurrentMerge.step L cmd ds)
    { shared := freshState cmd, points := ds.map (fun _ => Point.atGuard), sent := [] }

/-- The number of invocations inside the call of line 149. -/
def mergingCount : List Point → Nat
  | [] => 0
  | .inMerge :: ps => mergingCount ps + 1
  | _ :: ps => mergingCount ps

/-- The number of invocations inside the call of line 162. -/
def marshallingCount : List Point → Nat
  | [] => 0
  | .inMarshal :: ps => marshallingCount ps + 1
  | _ :: ps => marshallingCount ps

/-- Mutual exclusion on the captured map: an invocation inside the call that
writes the map is the only invocation inside a call that uses the map. -/
def ConcurrentMerge.exclusive (c : ConcurrentMerge) : Bool :=
  mergingCount c.points == 0 ||
    (mergingCount c.points == 1 && marshallingCount c.points == 0)

/-- The payload that the goroutine of stage `stage` of
`ConcurrentCallbackTester.OnCmd` sets on its result: the four common keys, each
with the text `stage_<stage>_<key>`, then `stage` and `timestamp`; the keys are in
the order in which `json.Marshal` writes a map. -/
def stagePayload (stage : Nat) (timestamp : Int) : JObj :=
  .cons "data" (.str (String.append (String.append "stage_" (toString stage)) "_data"))
    (.cons "message" (.str (String.append (String.append "stage_" (toString stage)) "_message"))
      (.cons "result" (.str (String.append (String.append "stage_" (toString stage)) "_result"))
        (.cons "stage" (.num stage)
          (.cons "status"
            (.str (String.append (String.append "stage_" (toString stage)) "_status"))
            (.cons "timestamp" (.num timestamp) .nil)))))

/-- The three results of `ConcurrentCallbackTester.OnCmd`, one per goroutine; the
result of stage 2 is the final one.  The timestamps are three readings of the
clock. -/
def concurrentDeliveries : List Delivery :=
  [okResult false (stagePayload 0 1700000000000000001),
   okResult false (stagePayload 1 1700000000000000002),
   okResult true (stagePayload 2 1700000000000000003)]

/-- The state of the completion guard against the replies sent so far: either
the guard is open, nothing was sent and `cmdResult` is still the result built at
line 52, or the guard is closed and exactly one reply was sent. -/
def Guarded (cmd : Cmd) (s : CallbackState) (sent : List CmdResult) : Prop :=
  (s.hasReturnedResult = false ∧ sent = [] ∧ s.cmdResult = NewCmdResult .StatusCodeOk cmd) ∨
  (s.hasReturnedResult = true ∧ sent.length = 1)

end EventBus

/-! # ai_agents/server/internal/config.go -/

namespace Config

/-- The value of a run of ASCII decimal digits read from the left with the
accumulator `acc`; `none` when a character is not a digit. -/
def digitsValue (acc : Nat) : List Char → Option Nat
  | [] => some acc
  | c :: cs =>
    if 48 ≤ c.toNat ∧ c.toNat ≤ 57 then digitsValue (acc * 10 + (c.toNat - 48)) cs else none

/-- The integer written by a decimal text as `strconv.Atoi` reads it: an optional
sign `+` or `-` followed by at least one decimal digit and nothing else. -/
def decimalValue (s : String) : Option Int :=
  match s.toList with
  | [] => none
  | c :: cs =>
    if c = '-' then
      match cs with
      | [] => none
      | _ => (digitsValue 0 cs).map (fun n => - (n : Int))
    else if c = '+' then
      match cs with
      | [] => none
      | _ => (digitsValue 0 cs).map (fun n => (n : Int))
    else (digitsValue 0 (c :: cs)).map (fun n => (n : Int))

/-- The function `strconv.Atoi` where `int` has 64 bits: a syntax error for a text
that is not a decimal text, a range error for a value outside
`-2^63 .. 2^63 - 1`, the value otherwise. -/
def Atoi (s : String) : Except String Int :=
  match decimalValue s with
  | none => .error "invalid syntax"
  | some n =>
    if n < -(2 ^ 63) ∨ 2 ^ 63 ≤ n then .error "value out of range" else .ok n

/-- The function `getMaxGeminiWorkerCount`.  `env` is the environment variable
`MAX_GEMINI_WORKER_COUNT` (`none` when it is not set); `os.Getenv` returns the
empty string for a variable that is not set. -/
def getMaxGeminiWorkerCount (env : Option String) : Int :=
  let val := env.getD ""
  if val ≠ "" then
    match Atoi val with
    | .ok count => if count > 0 then count else 3
    | .error _ => 3
  else 3

end Config

/-! # packages/example_apps/transcriber_demo/main.go -/

namespace TranscriberDemo

/-- A call that `OnConfigure` makes on `tenEnv`. -/
inductive Call where
  | LogDebug (msg : String)
  | LogWarn (msg : String)
  | LogInfo (msg : String)
  | LogError (msg : String)
  | InitPropertyFromJSONBytes (b : List UInt8)
  | OnConfigureDone
  deriving DecidableEq, Repr

/-- The configuration of the app. -/
structure appConfig where
  PropertyFilePath : String

/-- The method `defaultApp.OnConfigure`.  `dotenvErr` is what `godotenv.Load()`
returns (`none` for nil) and `ReadFile` is `os.ReadFile`.  The result lists the
calls made on `tenEnv`, in program order.  The length of the path is positive
exactly when the path is not the empty string. -/
def OnConfigure (cfg : appConfig) (dotenvErr : Option String)
    (ReadFile : String → Except String (List UInt8)) : List Call :=
  [Call.LogDebug "onConfigure"] ++
  (match dotenvErr with
   | some _ => [Call.LogWarn "Warning: .env file not found, continuing without it"]
   | none => [Call.LogInfo "Successfully loaded .env file"]) ++
  (if cfg.PropertyFilePath.length > 0 then
     match ReadFile cfg.PropertyFilePath with
     | .error err =>
       [Call.LogError (String.append "Failed to read property file "
         (String.append cfg.PropertyFilePath (String.append ", err " err)))]
     | .ok b => [Call.InitPropertyFromJSONBytes b]
   else []) ++
  [Call.OnConfigureDone]

end TranscriberDemo

namespace EventBus

/-! ## Lemmas on maps -/

/-- Induction along the entries of a map. -/
theorem JObj.induct {motive : JObj → Prop} (nil : motive .nil)
    (cons : ∀ k v rest, motive rest → motive (.cons k v rest)) : ∀ m, motive m
  | .nil => nil
  | .cons k v rest => cons k v rest (JObj.induct nil cons rest)

theorem JObj.find_set (m : JObj) (k k' : String) (v : Json) :
    (m.set k' v).find k = if k' = k then some v else m.find k := by
  induction m using JObj.induct with
  | nil => simp [JObj.set, JObj.find]
  | cons k₀ v₀ rest ih =>
    by_cases h₀ : k₀ = k'
    · subst h₀
      by_cases h₁ : k₀ = k <;> simp [JObj.set, JObj.find, h₁]
    · by_cases h₁ : k₀ = k
      · subst h₁
        have h₂ : ¬ k' = k₀ := fun h => h₀ h.symm
        simp [JObj.set, JObj.find, h₀, h₂]
      · simp [JObj.set, JObj.find, h₀, h₁, ih]

/-- On a flat arriving map the merge is key replacement. -/
theorem mergoMerge_find_flat (dst src : JObj) (hflat : src.flat = true) (k : String) :
    (mergoMerge dst src).find k = (src.find k).orElse (fun _ => dst.find k) := by
  induction src using JObj.induct with
  | nil => simp [mergoMerge, JObj.find]
  | cons k₀ v₀ rest ih =>
    cases v₀ with
    | obj o => simp [JObj.flat] at hflat
    | null | bool _ | num _ | str _ | arr _ =>
      have hrest : rest.flat = true := by simpa [JObj.flat] using hflat
      by_cases h : k₀ = k
      · simp [mergoMerge, JObj.find_set, JObj.find, h]
      · simp [mergoMerge, JObj.find_set, JObj.find, h, ih hrest]

/-! ## Lemmas on the callback -/

theorem callback_closed (L : Lib) (cmd : Cmd) (s : CallbackState) (d : Delivery)
    (h : s.hasReturnedResult = true) : callback L cmd s d = (s, []) := by
  simp [callback, h]

theorem deliver_closed (L : Lib) (cmd : Cmd) (s : CallbackState) (ds : List Delivery)
    (h : s.hasReturnedResult = true) : deliver L cmd s ds = (s, []) := by
  induction ds with
  | nil => rfl
  | cons d ds ih => simp [deliver, callback_closed L cmd s d h, ih]

theorem deliver_append (L : Lib) (cmd : Cmd) (s : CallbackState) (ds₁ ds₂ : List Delivery) :
    deliver L cmd s (ds₁ ++ ds₂) =
      ((deliver L cmd (deliver L cmd s ds₁).1 ds₂).1,
        (deliver L cmd s ds₁).2 ++ (deliver L cmd (deliver L cmd s ds₁).1 ds₂).2) := by
  induction ds₁ generalizing s with
  | nil => simp [deliver]
  | cons d ds ih => simp [deliver, ih, List.append_assoc]

theorem callback_goLib_guarded (cmd : Cmd) (s : CallbackState) (d : Delivery)
    (hopen : s.hasReturnedResult = false)
    (hres : s.cmdResult = NewCmdResult .StatusCodeOk cmd) :
    Guarded cmd (callback goLib cmd s d).1 (callback goLib cmd s d).2 ∧
      (d.terminating = true → (callback goLib cmd s d).1.hasReturnedResult = true) := by
  cases d with
  | failure er =>
    cases er with
    | otherError msg => simp [callback, hopen, Guarded, Delivery.terminating]
    | TenError code msg =>
      by_cases hc : code = .ErrorCodeMsgNotConnected <;>
        simp [callback, hopen, Guarded, Delivery.terminating, hc]
  | result cr =>
    obtain ⟨sc, pj, ic⟩ := cr
    cases sc with
    | error e => simp [callback, hopen, Guarded, Delivery.terminating]
    | ok code =>
      cases pj with
      | error e => cases code <;> simp [callback, hopen, Guarded, Delivery.terminating]
      | ok bytes =>
        cases code with
        | StatusCodeError => simp [callback, hopen, Guarded, Delivery.terminating]
        | StatusCodeOk =>
          cases hu : jsonUnmarshal bytes with
          | error e => simp [callback, hopen, Guarded, Delivery.terminating, goLib, hu]
          | ok m =>
            cases ic <;>
              simp [callback, hopen, hres, Guarded, Delivery.terminating, goLib, hu, jsonMarshal]

theorem deliver_goLib_guarded (cmd : Cmd) (ds : List Delivery) (s : CallbackState)
    (hopen : s.hasReturnedResult = false)
    (hres : s.cmdResult = NewCmdResult .StatusCodeOk cmd) :
    Guarded cmd (deliver goLib cmd s ds).1 (deliver goLib cmd s ds).2 ∧
      ((∃ d ∈ ds, d.terminating = true) →
        (deliver goLib cmd s ds).1.hasReturnedResult = true) := by
  induction ds generalizing s with
  | nil => simp [deliver, Guarded, hopen, hres]
  | cons d ds ih =>
    obtain ⟨hg, ht⟩ := callback_goLib_guarded cmd s d hopen hres
    rcases hg with ⟨ho, hs, hr⟩ | ⟨hc, hl⟩
    · obtain ⟨hg', ht'⟩ := ih (callback goLib cmd s d).1 ho hr
      refine ⟨?_, ?_⟩
      · simpa [deliver, hs] using hg'
      · rintro ⟨d', hd', hterm⟩
        rcases List.mem_cons.mp hd' with rfl | hmem
        · have := ht hterm
          simp [ho] at this
        · simpa [deliver] using ht' ⟨d', hmem, hterm⟩
    · have hd := deliver_closed goLib cmd (callback goLib cmd s d).1 ds hc
      refine ⟨?_, ?_⟩
      · right
        simp [deliver, hd, hc, hl]
      · intro _
        simp [deliver, hd, hc]

theorem replies_append (es₁ es₂ : List Effect) :
    replies (es₁ ++ es₂) = replies es₁ ++ replies es₂ := by
  induction es₁ with
  | nil => rfl
  | cons e es ih => cases e <;> simp [replies, ih]

theorem replies_map_ReturnResult (rs : List CmdResult) :
    replies (rs.map Effect.ReturnResult) = rs := by
  induction rs with
  | nil => rfl
  | cons r rs ih => simp [replies, ih]

/-- A run of `Ok`, non-completed results with object payloads only merges. -/
theorem deliver_partials (cmd : Cmd) (ms : List JObj) (s : CallbackState)
    (hopen : s.hasReturnedResult = false) :
    deliver goLib cmd s (ms.map (okResult false)) =
      ({ s with cmdResultMerged := ms.foldl mergoMerge s.cmdResultMerged }, []) := by
  induction ms generalizing s with
  | nil => simp [deliver]
  | cons m ms ih =>
    have hstep : callback goLib cmd s (okResult false m) =
        ({ s with cmdResultMerged := mergoMerge s.cmdResultMerged m }, []) := by
      simp [callback, okResult, hopen, goLib, jsonUnmarshal]
    have hnext := ih { s with cmdResultMerged := mergoMerge s.cmdResultMerged m } hopen
    simp only [List.map_cons, deliver, hstep, hnext, List.foldl_cons, List.append_nil]

/-- An `Ok`, completed result with an object payload, arriving while the guard
is open, merges and replies with the merged map. -/
theorem callback_final (cmd : Cmd) (mf : JObj) (s : CallbackState)
    (hopen : s.hasReturnedResult = false) :
    callback goLib cmd s (okResult true mf) =
      ({ hasReturnedResult := true
         cmdResultMerged := mergoMerge s.cmdResultMerged mf
         cmdResult := { s.cmdResult with
                        property := some (.obj (mergoMerge s.cmdResultMerged mf)) } },
       [{ s.cmdResult with property := some (.obj (mergoMerge s.cmdResultMerged mf)) }]) := by
  simp [callback, okResult, hopen, goLib, jsonUnmarshal, jsonMarshal,
    CmdResult.SetPropertyFromJSONBytes]

/-- The value a key holds after a run of flat merges is the one written by the
last map that has the key, or the initial one when no map has it. -/
theorem foldl_mergoMerge_find (ms : List JObj) (hflat : ∀ m ∈ ms, m.flat = true)
    (d₀ : JObj) (k : String) (v : Json) :
    (ms.foldl mergoMerge d₀).find k = some v ↔
      (∃ pre m post, ms = pre ++ m :: post ∧ m.find k = some v ∧
          ∀ m' ∈ post, m'.find k = none) ∨
      (d₀.find k = some v ∧ ∀ m ∈ ms, m.find k = none) := by
  induction ms generalizing d₀ with
  | nil => simp
  | cons m ms ih =>
    have hm : m.flat = true := hflat m (List.mem_cons_self _ _)
    have hms : ∀ m' ∈ ms, m'.flat = true := fun m' h => hflat m' (List.mem_cons_of_mem _ h)
    rw [List.foldl_cons, ih hms (mergoMerge d₀ m), mergoMerge_find_flat d₀ m hm k]
    constructor
    · rintro (⟨pre, x, post, rfl, hx, hpost⟩ | ⟨hd, hall⟩)
      · exact Or.inl ⟨m :: pre, x, post, rfl, hx, hpost⟩
      · cases hmk : m.find k with
        | none =>
          rw [hmk] at hd
          refine Or.inr ⟨by simpa using hd, ?_⟩
          intro m' hm'
          rcases List.mem_cons.mp hm' with rfl | h
          · exact hmk
          · exact hall m' h
        | some w =>
          rw [hmk] at hd
          have hw : w = v := by simpa using hd
          subst hw
          exact Or.inl ⟨[], m, ms, rfl, hmk, hall⟩
    · rintro (⟨pre, x, post, heq, hx, hpost⟩ | ⟨hd, hall⟩)
      · cases pre with
        | nil =>
          simp only [List.nil_append, List.cons.injEq] at heq
          obtain ⟨rfl, rfl⟩ := heq
          exact Or.inr ⟨by simp [hx], hpost⟩
        | cons p pre =>
          simp only [List.cons_append, List.cons.injEq] at heq
          obtain ⟨rfl, rfl⟩ := heq
          exact Or.inl ⟨pre, x, post, rfl, hx, hpost⟩
      · have hmk : m.find k = none := hall m (List.mem_cons_self _ _)
        exact Or.inr ⟨by simp [hmk, hd], fun m' h => hall m' (List.mem_cons_of_mem _ h)⟩

/-- An `Ok`, non-completed result whose payload unmarshals, arriving while the
guard is open, merges and sends nothing. -/
theorem callback_merge_only (cmd : Cmd) (s : CallbackState) (bytes : JSONBytes) (m : JObj)
    (hopen : s.hasReturnedResult = false) (hparse : jsonUnmarshal bytes = .ok m) :
    callback goLib cmd s
        (.result { GetStatusCode := .ok .StatusCodeOk
                   GetPropertyToJSONBytes := .ok bytes
                   IsCompleted := false }) =
      ({ s with cmdResultMerged := mergoMerge s.cmdResultMerged m }, []) := by
  simp [callback, hopen, goLib, hparse]

/-- While no reply has been sent, the guard is open and `cmdResult` is still the
result built at line 52. -/
theorem open_of_no_reply (cmd : Cmd) (ds : List Delivery)
    (hnone : (deliver goLib cmd (freshState cmd) ds).2 = []) :
    (deliver goLib cmd (freshState cmd) ds).1.hasReturnedResult = false ∧
      (deliver goLib cmd (freshState cmd) ds).1.cmdResult = NewCmdResult .StatusCodeOk cmd := by
  rcases (deliver_goLib_guarded cmd ds (freshState cmd) rfl rfl).1 with ⟨ho, _, hr⟩ | ⟨_, hl⟩
  · exact ⟨ho, hr⟩
  · simp [hnone] at hl

/-! ## The claims -/

/-- C1: for a command named `ten_event`, whatever `SendCmdEx` returned and for
every finite sequence of deliveries handed one at a time to the registered
callback, if the sequence contains a terminating delivery then exactly one
`ReturnResult` call is made for the command. -/
theorem exactly_one_reply (cmd : Cmd) (sendErr : Option GoError) (ds : List Delivery)
    (hname : cmd.GetName = .ok cmdTenEvent)
    (hterm : ∃ d ∈ ds, d.terminating = true) :
    (replies (session goLib cmd sendErr ds)).length = 1 := by
  cases sendErr with
  | none =>
    obtain ⟨hg, ht⟩ := deliver_goLib_guarded cmd ds (freshState cmd) rfl rfl
    have hclosed := ht hterm
    rcases hg with ⟨ho, _, _⟩ | ⟨_, hl⟩
    · simp [hclosed] at ho
    · simp [session, OnCmd, hname, replies_append, replies_map_ReturnResult, replies, hl]
  | some e =>
    have hd := deliver_closed goLib cmd { freshState cmd with hasReturnedResult := true } ds rfl
    simp [session, OnCmd, hname, replies_append, replies_map_ReturnResult, replies, hd]

theorem exactly_one_reply_witness :
    basicCmd.GetName = .ok cmdTenEvent ∧
    (∃ d ∈ [okResult false partialPayload, okResult true finalPayload, errorDelivery],
      d.terminating = true) ∧
    (replies (session goLib basicCmd none
      [okResult false partialPayload, okResult true finalPayload, errorDelivery])).length = 1 :=
  ⟨rfl, ⟨okResult true finalPayload, by simp, rfl⟩,
    exactly_one_reply basicCmd none _ rfl ⟨okResult true finalPayload, by simp, rfl⟩⟩

/-- C2: after `Ok` non-completed results with object payloads `ms` (possibly none)
followed by an `Ok` completed result with object payload `mf`, the callback has
sent exactly one reply; its status is `Ok` and the property written on it is the
map obtained from the empty map by merging `ms` and then `mf` in arrival order. -/
theorem final_reply_is_merge_of_all (cmd : Cmd) (ms : List JObj) (mf : JObj) :
    ((deliver goLib cmd (freshState cmd)
        (ms.map (okResult false) ++ [okResult true mf])).2.map
      (fun r => (r.statusCode, r.property))) =
      [(StatusCode.StatusCodeOk, some (Json.obj ((ms ++ [mf]).foldl mergoMerge JObj.nil)))] := by
  rw [deliver_append, deliver_partials cmd ms (freshState cmd) rfl]
  simp [deliver, callback_final, freshState, NewCmdResult, List.foldl_append]

/-- C3: last writer wins per key.  After `Ok` non-completed results with flat
payloads `ms`, a key `k` holds `v` in `cmdResultMerged` exactly when the last
payload that has `k` carries `v`; the same holds for the property of the reply
once a flat completed result `mf` has been applied after them.  In particular
`a:1` followed by the final `a:2, b:3` is answered with `a:2, b:3`. -/
theorem merge_last_writer_wins (cmd : Cmd) (ms : List JObj) (mf : JObj)
    (hflat : ∀ m ∈ ms, m.flat = true) (hflatf : mf.flat = true) (k : String) (v : Json) :
    ((deliver goLib cmd (freshState cmd) (ms.map (okResult false))).1.cmdResultMerged.find k
        = some v ↔
      ∃ pre m post, ms = pre ++ m :: post ∧ m.find k = some v ∧
        ∀ m' ∈ post, m'.find k = none) ∧
    (∃ merged,
      (deliver goLib cmd (freshState cmd)
        (ms.map (okResult false) ++ [okResult true mf])).2.map CmdResult.property
        = [some (Json.obj merged)] ∧
      (merged.find k = some v ↔
        ∃ pre m post, ms ++ [mf] = pre ++ m :: post ∧ m.find k = some v ∧
          ∀ m' ∈ post, m'.find k = none)) ∧
    (deliver goLib cmd (freshState cmd)
      [okResult false (.cons "a" (.num 1) .nil),
       okResult true (.cons "a" (.num 2) (.cons "b" (.num 3) .nil))]).2.map CmdResult.property
      = [some (Json.obj (.cons "a" (.num 2) (.cons "b" (.num 3) .nil)))] := by
  refine ⟨?_, ?_, ?_⟩
  · rw [deliver_partials cmd ms (freshState cmd) rfl]
    have h := foldl_mergoMerge_find ms hflat JObj.nil k v
    simpa [freshState, JObj.find] using h
  · refine ⟨(ms ++ [mf]).foldl mergoMerge JObj.nil, ?_, ?_⟩
    · rw [deliver_append, deliver_partials cmd ms (freshState cmd) rfl]
      simp [deliver, callback_final, freshState, NewCmdResult, List.foldl_append]
    · have hall : ∀ m ∈ ms ++ [mf], m.flat = true := by
        intro m hm
        rcases List.mem_append.mp hm with h | h
        · exact hflat m h
        · simpa [List.mem_singleton.mp h] using hflatf
      have h := foldl_mergoMerge_find (ms ++ [mf]) hall JObj.nil k v
      simpa [JObj.find] using h
  · rfl

theorem merge_last_writer_wins_witness :
    (∀ m ∈ [JObj.cons "a" (.num 1) .nil], m.flat = true) ∧
    (JObj.cons "a" (.num 2) (.cons "b" (.num 3) .nil)).flat = true ∧
    ((deliver goLib basicCmd (freshState basicCmd)
        ([JObj.cons "a" (.num 1) .nil].map (okResult false))).1.cmdResultMerged.find "a"
        = some (.num 1) ↔
      ∃ pre m post, [JObj.cons "a" (.num 1) .nil] = pre ++ m :: post ∧
        m.find "a" = some (.num 1) ∧ ∀ m' ∈ post, m'.find "a" = none) :=
  ⟨by decide, by decide,
    (merge_last_writer_wins basicCmd [JObj.cons "a" (.num 1) .nil]
      (JObj.cons "a" (.num 2) (.cons "b" (.num 3) .nil)) (by decide) (by decide)
      "a" (.num 1)).1⟩

/-- C4, evaluated at the failing input: on a fresh request the result of status
`Error` of `ErrorHandlingTester` is answered with one reply, and the status of
that reply is `Ok`: it is the result built at line 52 with `StatusCodeOk`. -/
theorem nonOk_delivery_is_answered_with_ok :
    (callback goLib basicCmd (freshState basicCmd) errorDelivery).2.map CmdResult.statusCode
      = [StatusCode.StatusCodeOk] := by
  rfl

/-- C5: when `Ok` non-completed results with payloads `ms` are followed by a result
of status `Error` (whatever its payload and its completed mark), exactly one reply
is sent, it is the reply that the same `Error` result gets on a fresh request,
and no property was written on it: nothing merged from `ms` is in it. -/
theorem error_reply_has_nothing_merged (cmd : Cmd) (ms : List JObj)
    (payload : Except String JSONBytes) (completed : Bool) :
    (deliver goLib cmd (freshState cmd)
        (ms.map (okResult false) ++
          [.result { GetStatusCode := .ok .StatusCodeError
                     GetPropertyToJSONBytes := payload
                     IsCompleted := completed }])).2 =
      (deliver goLib cmd (freshState cmd)
        [.result { GetStatusCode := .ok .StatusCodeError
                   GetPropertyToJSONBytes := payload
                   IsCompleted := completed }]).2 ∧
    ∃ r, (deliver goLib cmd (freshState cmd)
        (ms.map (okResult false) ++
          [.result { GetStatusCode := .ok .StatusCodeError
                     GetPropertyToJSONBytes := payload
                     IsCompleted := completed }])).2 = [r] ∧ r.property = none := by
  rw [deliver_append, deliver_partials cmd ms (freshState cmd) rfl]
  cases payload <;> simp [deliver, callback, freshState, NewCmdResult]

/-- C6: when no reply has been sent yet and the callback is invoked with a
`TenError` whose code is `ErrorCodeMsgNotConnected`, one reply is sent: the result
built at line 52 from the original command, on which nothing was written.  Its
status is `Ok` and its properties are those of the original command. -/
theorem not_connected_reply (cmd : Cmd) (ds : List Delivery) (msg : String)
    (hnone : (deliver goLib cmd (freshState cmd) ds).2 = []) :
    (callback goLib cmd (deliver goLib cmd (freshState cmd) ds).1
        (.failure (.TenError .ErrorCodeMsgNotConnected msg))).2 =
      [NewCmdResult .StatusCodeOk cmd] ∧
    (callback goLib cmd (deliver goLib cmd (freshState cmd) ds).1
        (.failure (.TenError .ErrorCodeMsgNotConnected msg))).2.map
      (fun r => (r.statusCode, r.GetProperty)) =
      [(StatusCode.StatusCodeOk, cmd.property)] := by
  obtain ⟨ho, hr⟩ := open_of_no_reply cmd ds hnone
  simp [callback, ho, hr, NewCmdResult, CmdResult.GetProperty]

theorem not_connected_reply_witness :
    (deliver goLib basicCmd (freshState basicCmd) [okResult false partialPayload]).2 = [] ∧
    (callback goLib basicCmd
        (deliver goLib basicCmd (freshState basicCmd) [okResult false partialPayload]).1
        (.failure (.TenError .ErrorCodeMsgNotConnected "not connected"))).2.map
      (fun r => (r.statusCode, r.GetProperty)) =
      [(StatusCode.StatusCodeOk, basicCmd.property)] :=
  ⟨rfl, (not_connected_reply basicCmd [okResult false partialPayload] "not connected" rfl).2⟩

/-- C7: when no reply has been sent yet and the callback is invoked with an error
that is not a not-connected `TenError` (a `TenError` with another code, or an
error of another type), the reply is the fresh result of status `Error` built
from the original command, no property is written on it, and the request is
marked as replied. -/
theorem transport_failure_reply (cmd : Cmd) (ds : List Delivery) (er : GoError)
    (hnone : (deliver goLib cmd (freshState cmd) ds).2 = [])
    (hkind : ∀ msg, er ≠ .TenError .ErrorCodeMsgNotConnected msg) :
    (callback goLib cmd (deliver goLib cmd (freshState cmd) ds).1 (.failure er)).2 =
      [NewCmdResult .StatusCodeError cmd] ∧
    (NewCmdResult .StatusCodeError cmd).statusCode = .StatusCodeError ∧
    (NewCmdResult .StatusCodeError cmd).property = none ∧
    (callback goLib cmd (deliver goLib cmd (freshState cmd) ds).1
      (.failure er)).1.hasReturnedResult = true := by
  obtain ⟨ho, _⟩ := open_of_no_reply cmd ds hnone
  cases er with
  | otherError m => simp [callback, ho, NewCmdResult]
  | TenError code m =>
    have hc : code ≠ .ErrorCodeMsgNotConnected := by
      intro h
      exact hkind m (by rw [h])
    simp [callback, ho, hc, NewCmdResult]

theorem transport_failure_reply_witness :
    (deliver goLib basicCmd (freshState basicCmd) [okResult false partialPayload]).2 = [] ∧
    (∀ msg, GoError.TenError (.ErrorCodeOther 1) "generic" ≠
      .TenError .ErrorCodeMsgNotConnected msg) ∧
    (callback goLib basicCmd
        (deliver goLib basicCmd (freshState basicCmd) [okResult false partialPayload]).1
        (.failure (.TenError (.ErrorCodeOther 1) "generic"))).2 =
      [NewCmdResult .StatusCodeError basicCmd] :=
  ⟨rfl, fun _ h => by simp at h,
    (transport_failure_reply basicCmd [okResult false partialPayload]
      (.TenError (.ErrorCodeOther 1) "generic") rfl (fun _ h => by simp at h)).1⟩

/-- C8: for a command whose name is not `ten_event`, `OnCmd` makes exactly one
call on the environment, a `ReturnResult` of a result of status `Error`; it makes
no `SendCmdEx` call and creates no closure state, so whatever is delivered later
nothing more happens for the command. -/
theorem unsupported_cmd_is_rejected (L : Lib) (cmd : Cmd) (sendErr : Option GoError)
    (ds : List Delivery) (cmdName : String)
    (hname : cmd.GetName = .ok cmdName) (hother : cmdName ≠ cmdTenEvent) :
    (OnCmd cmd sendErr).effects = [.ReturnResult (NewCmdResult .StatusCodeError cmd)] ∧
    (NewCmdResult .StatusCodeError cmd).statusCode = .StatusCodeError ∧
    forwards (OnCmd cmd sendErr).effects = [] ∧
    (OnCmd cmd sendErr).request = none ∧
    replies (session L cmd sendErr ds) = [NewCmdResult .StatusCodeError cmd] ∧
    forwards (session L cmd sendErr ds) = [] := by
  simp [OnCmd, session, hname, hother, forwards, replies, NewCmdResult]

theorem unsupported_cmd_is_rejected_witness :
    otherCmd.GetName = .ok "flush" ∧ "flush" ≠ cmdTenEvent ∧
    (OnCmd otherCmd none).effects = [.ReturnResult (NewCmdResult .StatusCodeError otherCmd)] ∧
    forwards (OnCmd otherCmd none).effects = [] :=
  ⟨rfl, by decide,
    (unsupported_cmd_is_rejected goLib otherCmd none [] "flush" rfl (by decide)).1,
    (unsupported_cmd_is_rejected goLib otherCmd none [] "flush" rfl (by decide)).2.2.1⟩

/-- C9: once `hasReturnedResult` is true, delivering any further sequence of
events of any kind sends no reply, leaves `cmdResultMerged` unchanged and leaves
`hasReturnedResult` true (whatever the libraries do). -/
theorem discard_after_reply (L : Lib) (cmd : Cmd) (s : CallbackState) (ds : List Delivery)
    (hclosed : s.hasReturnedResult = true) :
    (deliver L cmd s ds).2 = [] ∧
    (deliver L cmd s ds).1.cmdResultMerged = s.cmdResultMerged ∧
    (deliver L cmd s ds).1.hasReturnedResult = true := by
  rw [deliver_closed L cmd s ds hclosed]
  exact ⟨rfl, rfl, hclosed⟩

theorem discard_after_reply_witness :
    (callback goLib basicCmd (freshState basicCmd) (okResult true finalPayload)).1.hasReturnedResult
      = true ∧
    (deliver goLib basicCmd
      (callback goLib basicCmd (freshState basicCmd) (okResult true finalPayload)).1
      [okResult false partialPayload, errorDelivery, okResult true partialPayload,
       .failure (.otherError "closed")]).2 = [] :=
  ⟨rfl, (discard_after_reply goLib basicCmd
    (callback goLib basicCmd (freshState basicCmd) (okResult true finalPayload)).1
    [okResult false partialPayload, errorDelivery, okResult true partialPayload,
     .failure (.otherError "closed")] rfl).1⟩

/-- C10: when no reply has been sent yet and an `Ok` result that is not marked
completed arrives with a payload that unmarshals to the map `m`, the callback
merges `m` into `cmdResultMerged`, sends no reply and leaves `hasReturnedResult`
false. -/
theorem partial_result_only_merges (cmd : Cmd) (ds : List Delivery) (bytes : JSONBytes)
    (m : JObj)
    (hnone : (deliver goLib cmd (freshState cmd) ds).2 = [])
    (hparse : jsonUnmarshal bytes = .ok m) :
    (callback goLib cmd (deliver goLib cmd (freshState cmd) ds).1
        (.result { GetStatusCode := .ok .StatusCodeOk
                   GetPropertyToJSONBytes := .ok bytes
                   IsCompleted := false })).2 = [] ∧
    (callback goLib cmd (deliver goLib cmd (freshState cmd) ds).1
        (.result { GetStatusCode := .ok .StatusCodeOk
                   GetPropertyToJSONBytes := .ok bytes
                   IsCompleted := false })).1.cmdResultMerged =
      mergoMerge (deliver goLib cmd (freshState cmd) ds).1.cmdResultMerged m ∧
    (callback goLib cmd (deliver goLib cmd (freshState cmd) ds).1
        (.result { GetStatusCode := .ok .StatusCodeOk
                   GetPropertyToJSONBytes := .ok bytes
                   IsCompleted := false })).1.hasReturnedResult = false := by
  obtain ⟨ho, _⟩ := open_of_no_reply cmd ds hnone
  rw [callback_merge_only cmd _ bytes m ho hparse]
  exact ⟨rfl, rfl, ho⟩

theorem partial_result_only_merges_witness :
    (deliver goLib basicCmd (freshState basicCmd) []).2 = [] ∧
    jsonUnmarshal (some (.obj partialPayload)) = .ok partialPayload ∧
    (callback goLib basicCmd (deliver goLib basicCmd (freshState basicCmd) []).1
        (.result { GetStatusCode := .ok .StatusCodeOk
                   GetPropertyToJSONBytes := .ok (some (.obj partialPayload))
                   IsCompleted := false })).1.cmdResultMerged =
      mergoMerge (deliver goLib basicCmd (freshState basicCmd) []).1.cmdResultMerged
        partialPayload :=
  ⟨rfl, rfl,
    (partial_result_only_merges basicCmd [] (some (.obj partialPayload)) partialPayload
      rfl rfl).2.1⟩

/-! ## Further lemmas -/

theorem forwards_append (es₁ es₂ : List Effect) :
    forwards (es₁ ++ es₂) = forwards es₁ ++ forwards es₂ := by
  induction es₁ with
  | nil => rfl
  | cons e es ih => cases e <;> simp [forwards, ih]

theorem forwards_map_ReturnResult (rs : List CmdResult) :
    forwards (rs.map Effect.ReturnResult) = [] := by
  induction rs with
  | nil => rfl
  | cons r rs ih => simp [forwards, ih]

/-- A run of `Ok`, non-completed results whose payloads unmarshal sends nothing
and leaves the guard open. -/
theorem deliver_okBytes (cmd : Cmd) (bs : List JSONBytes) (s : CallbackState)
    (hopen : s.hasReturnedResult = false)
    (hparse : ∀ b ∈ bs, ∃ m, jsonUnmarshal b = .ok m) :
    (deliver goLib cmd s (bs.map (okBytes false))).2 = [] ∧
      (deliver goLib cmd s (bs.map (okBytes false))).1.hasReturnedResult = false := by
  induction bs generalizing s with
  | nil => simp [deliver, hopen]
  | cons b bs ih =>
    obtain ⟨m, hm⟩ := hparse b (List.mem_cons_self _ _)
    have hstep : callback goLib cmd s (okBytes false b) =
        ({ s with cmdResultMerged := mergoMerge s.cmdResultMerged m }, []) :=
      callback_merge_only cmd s b m hopen hm
    have hnext := ih { s with cmdResultMerged := mergoMerge s.cmdResultMerged m } hopen
      (fun b' hb' => hparse b' (List.mem_cons_of_mem _ hb'))
    simpa [deliver, hstep] using hnext

/-- Whatever the libraries do, a run of the callback that closes the guard sends
a reply. -/
theorem callback_closing_replies (L : Lib) (cmd : Cmd) (s : CallbackState) (d : Delivery)
    (hopen : s.hasReturnedResult = false)
    (hclosed : (callback L cmd s d).1.hasReturnedResult = true) :
    (callback L cmd s d).2 ≠ [] := by
  cases d with
  | failure er =>
    cases er with
    | otherError msg => simp [callback, hopen]
    | TenError code msg =>
      by_cases hc : code = .ErrorCodeMsgNotConnected <;> simp [callback, hopen, hc]
  | result cr =>
    obtain ⟨sc, pj, ic⟩ := cr
    cases sc with
    | error e => simp [callback, hopen]
    | ok code =>
      cases pj with
      | error e => simp [callback, hopen]
      | ok bytes =>
        cases code with
        | StatusCodeError => simp [callback, hopen]
        | StatusCodeOk =>
          cases hu : L.unmarshal bytes with
          | error e => simp [callback, hopen, hu]
          | ok m =>
            rcases hmg : L.merge s.cmdResultMerged m with ⟨merged, _ | e⟩
            · cases ic with
              | false => simp [callback, hopen, hu, hmg] at hclosed
              | true =>
                cases hms : L.marshal merged with
                | error e => simp [callback, hopen, hu, hmg, hms]
                | ok b => simp [callback, hopen, hu, hmg, hms]
            · simp [callback, hopen, hu, hmg]

/-- Whatever the libraries do, while no reply has been sent the guard is open. -/
theorem deliver_open_of_no_reply (L : Lib) (cmd : Cmd) (ds : List Delivery) (s : CallbackState)
    (hopen : s.hasReturnedResult = false)
    (hnone : (deliver L cmd s ds).2 = []) :
    (deliver L cmd s ds).1.hasReturnedResult = false := by
  induction ds generalizing s with
  | nil => simpa [deliver] using hopen
  | cons d ds ih =>
    have hsplit : (callback L cmd s d).2 = [] ∧ (deliver L cmd (callback L cmd s d).1 ds).2 = [] := by
      simpa [deliver] using hnone
    have hstill : (callback L cmd s d).1.hasReturnedResult = false := by
      by_contra hne
      have hc : (callback L cmd s d).1.hasReturnedResult = true := by simpa using hne
      exact callback_closing_replies L cmd s d hopen hc hsplit.1
    simpa [deliver] using ih (callback L cmd s d).1 hstill hsplit.2

/-- Whatever the libraries do, a serialization failure met while the guard is
open is answered with one fresh result of status `Error`. -/
theorem callback_serializationFailure (L : Lib) (cmd : Cmd) (s : CallbackState)
    (cr : DeliveredResult) (hopen : s.hasReturnedResult = false)
    (hfail : serializationFailure L s cr) :
    (callback L cmd s (.result cr)).2 = [NewCmdResult .StatusCodeError cmd] := by
  obtain ⟨sc, pj, ic⟩ := cr
  rcases hfail with ⟨e, h⟩ | ⟨c, e, h₁, h₂⟩ | ⟨b, e, h₁, h₂, h₃⟩ | ⟨b, m, e, h₁, h₂, h₃, h₄⟩ |
    ⟨b, m, e, h₁, h₂, h₃, h₄, h₅, h₆⟩
  · simp only at h
    simp [callback, hopen, h]
  · simp only at h₁ h₂
    simp [callback, hopen, h₁, h₂]
  · simp only at h₁ h₂
    simp [callback, hopen, h₁, h₂, h₃]
  · simp only at h₁ h₂
    rcases hmg : L.merge s.cmdResultMerged m with ⟨merged, err⟩
    rw [hmg] at h₄
    simp only at h₄
    subst h₄
    simp [callback, hopen, h₁, h₂, h₃, hmg]
  · simp only at h₁ h₂ h₅
    rcases hmg : L.merge s.cmdResultMerged m with ⟨merged, err⟩
    rw [hmg] at h₄ h₆
    simp only at h₄ h₆
    subst h₄
    simp [callback, hopen, h₁, h₂, h₃, hmg, h₅, h₆]

theorem JObj.mem_keys_iff (m : JObj) (k : String) :
    k ∈ m.keys ↔ (m.find k).isSome = true := by
  induction m using JObj.induct with
  | nil => simp [JObj.keys, JObj.find]
  | cons k₀ v₀ rest ih =>
    by_cases h : k₀ = k
    · simp [JObj.keys, JObj.find, h]
    · have h' : ¬ k = k₀ := fun e => h e.symm
      simp [JObj.keys, JObj.find, h, h', ih]

/-- After a run of flat merges a key is present exactly when one of the merged
maps, or the initial map, has it. -/
theorem foldl_mergoMerge_keys (ms : List JObj) (hflat : ∀ m ∈ ms, m.flat = true)
    (d₀ : JObj) (k : String) :
    k ∈ (ms.foldl mergoMerge d₀).keys ↔ (∃ m ∈ ms, k ∈ m.keys) ∨ k ∈ d₀.keys := by
  induction ms generalizing d₀ with
  | nil => simp
  | cons m ms ih =>
    have hm : m.flat = true := hflat m (List.mem_cons_self _ _)
    have hms : ∀ m' ∈ ms, m'.flat = true := fun m' h => hflat m' (List.mem_cons_of_mem _ h)
    have hstep : k ∈ (mergoMerge d₀ m).keys ↔ k ∈ m.keys ∨ k ∈ d₀.keys := by
      rw [JObj.mem_keys_iff, JObj.mem_keys_iff, JObj.mem_keys_iff,
        mergoMerge_find_flat d₀ m hm k]
      cases m.find k <;> simp
    rw [List.foldl_cons, ih hms (mergoMerge d₀ m), hstep]
    constructor
    · rintro (⟨m', hm', hk⟩ | hk | hk)
      · exact Or.inl ⟨m', List.mem_cons_of_mem _ hm', hk⟩
      · exact Or.inl ⟨m, List.mem_cons_self _ _, hk⟩
      · exact Or.inr hk
    · rintro (⟨m', hm', hk⟩ | hk)
      · rcases List.mem_cons.mp hm' with rfl | h
        · exact Or.inr (Or.inl hk)
        · exact Or.inl ⟨m', h, hk⟩
      · exact Or.inr (Or.inr hk)

/-! ## The claims, continued -/

/-- C11: for a command named `ten_event` whose forward succeeded, every sequence
of deliveries (the empty one included) that consists only of `Ok`, non-completed
results whose payloads unmarshal leaves the command without any reply. -/
theorem never_final_stream_sends_nothing (cmd : Cmd) (bs : List JSONBytes)
    (hname : cmd.GetName = .ok cmdTenEvent)
    (hparse : ∀ b ∈ bs, ∃ m, jsonUnmarshal b = .ok m) :
    replies (session goLib cmd none (bs.map (okBytes false))) = [] := by
  have h := (deliver_okBytes cmd bs (freshState cmd) rfl hparse).1
  simp [session, OnCmd, hname, replies_append, replies_map_ReturnResult, replies, h]

theorem never_final_stream_sends_nothing_witness :
    basicCmd.GetName = .ok cmdTenEvent ∧
    (∀ b ∈ [some (Json.obj partialPayload), some Json.null], ∃ m, jsonUnmarshal b = .ok m) ∧
    replies (session goLib basicCmd none
      ([some (Json.obj partialPayload), some Json.null].map (okBytes false))) = [] :=
  ⟨rfl, by simp [jsonUnmarshal],
    never_final_stream_sends_nothing basicCmd [some (Json.obj partialPayload), some Json.null]
      rfl (by simp [jsonUnmarshal])⟩

/-- C12: whatever the libraries do, when no reply has been sent yet and the run of
the callback on a result meets a serialization failure (the status code or the
properties cannot be read, the payload of an `Ok` result cannot be unmarshalled,
the merge reports an error, or the merged map of a completed result cannot be
marshalled), the callback sends exactly one reply, a fresh result of status
`Error`.  Once the guard is closed a delivery sends nothing, and with the
libraries the extension is built with the guard is closed as soon as a reply
was sent. -/
theorem serialization_failure_is_an_error_reply (L : Lib) (cmd : Cmd) (ds : List Delivery)
    (cr : DeliveredResult)
    (hnone : (deliver L cmd (freshState cmd) ds).2 = [])
    (hfail : serializationFailure L (deliver L cmd (freshState cmd) ds).1 cr) :
    (callback L cmd (deliver L cmd (freshState cmd) ds).1 (.result cr)).2 =
      [NewCmdResult .StatusCodeError cmd] ∧
    (NewCmdResult .StatusCodeError cmd).statusCode = .StatusCodeError ∧
    (∀ (s : CallbackState) (d : Delivery), s.hasReturnedResult = true →
      (callback L cmd s d).2 = []) ∧
    (∀ (ds' : List Delivery) (d : Delivery),
      (deliver goLib cmd (freshState cmd) ds').2 ≠ [] →
      (callback goLib cmd (deliver goLib cmd (freshState cmd) ds').1 d).2 = []) := by
  refine ⟨?_, rfl, ?_, ?_⟩
  · exact callback_serializationFailure L cmd _ cr
      (deliver_open_of_no_reply L cmd ds (freshState cmd) rfl hnone) hfail
  · intro s d hs
    rw [callback_closed L cmd s d hs]
  · intro ds' d hsent
    rcases (deliver_goLib_guarded cmd ds' (freshState cmd) rfl rfl).1 with ⟨_, hs, _⟩ | ⟨hc, _⟩
    · exact absurd hs hsent
    · rw [callback_closed goLib cmd _ d hc]

theorem serialization_failure_is_an_error_reply_witness :
    (deliver failingMergeLib basicCmd (freshState basicCmd) []).2 = [] ∧
    serializationFailure failingMergeLib
      (deliver failingMergeLib basicCmd (freshState basicCmd) []).1
      { GetStatusCode := .ok .StatusCodeOk
        GetPropertyToJSONBytes := .ok (some (.obj partialPayload))
        IsCompleted := false } ∧
    (callback failingMergeLib basicCmd
        (deliver failingMergeLib basicCmd (freshState basicCmd) []).1
        (.result { GetStatusCode := .ok .StatusCodeOk
                   GetPropertyToJSONBytes := .ok (some (.obj partialPayload))
                   IsCompleted := false })).2 =
      [NewCmdResult .StatusCodeError basicCmd] :=
  ⟨rfl,
    Or.inr (Or.inr (Or.inr (Or.inl
      ⟨some (.obj partialPayload), partialPayload, "merge failed", rfl, rfl, rfl, rfl⟩))),
    (serialization_failure_is_an_error_reply failingMergeLib basicCmd []
      { GetStatusCode := .ok .StatusCodeOk
        GetPropertyToJSONBytes := .ok (some (.obj partialPayload))
        IsCompleted := false }
      rfl
      (Or.inr (Or.inr (Or.inr (Or.inl
        ⟨some (.obj partialPayload), partialPayload, "merge failed", rfl, rfl, rfl, rfl⟩))))).1⟩

/-- C13: for a command named `ten_event`, one call of `OnCmd` makes exactly one
`SendCmdEx` call, whatever that call returns; the command it hands over is the
object returned by `cmd.Clone()`, which has the name and the properties of the
inbound command and is another object than the inbound command, so the inbound
command itself is never forwarded; and no sequence of deliveries to the callback
adds a forward. -/
theorem forward_is_fire_once (L : Lib) (cmd : Cmd) (sendErr : Option GoError)
    (ds : List Delivery) (hname : cmd.GetName = .ok cmdTenEvent) :
    forwards (OnCmd cmd sendErr).effects = [cmd.Clone] ∧
    cmd.Clone.GetName = cmd.GetName ∧
    cmd.Clone.property = cmd.property ∧
    forwards (session L cmd sendErr ds) = [cmd.Clone] ∧
    cmd.Clone.handle ≠ cmd.handle ∧
    cmd.Clone ≠ cmd ∧
    cmd ∉ forwards (session L cmd sendErr ds) := by
  have hobj : cmd.Clone.handle ≠ cmd.handle := by simp [Cmd.Clone]
  have hne : cmd.Clone ≠ cmd := fun h => hobj (congrArg Cmd.handle h)
  have hfw : forwards (session L cmd sendErr ds) = [cmd.Clone] := by
    cases sendErr <;>
      simp [OnCmd, session, hname, forwards, forwards_append, forwards_map_ReturnResult]
  refine ⟨?_, rfl, rfl, hfw, hobj, hne, ?_⟩
  · cases sendErr <;> simp [OnCmd, hname, forwards]
  · rw [hfw]
    simp only [List.mem_singleton]
    exact fun h => hne h.symm

theorem forward_is_fire_once_witness :
    basicCmd.GetName = .ok cmdTenEvent ∧
    forwards (session goLib basicCmd none
      [okResult false partialPayload, okResult true finalPayload, errorDelivery]) =
      [basicCmd.Clone] ∧
    basicCmd ∉ forwards (session goLib basicCmd none
      [okResult false partialPayload, okResult true finalPayload, errorDelivery]) :=
  ⟨rfl, (forward_is_fire_once goLib basicCmd none
    [okResult false partialPayload, okResult true finalPayload, errorDelivery] rfl).2.2.2.1,
    (forward_is_fire_once goLib basicCmd none
    [okResult false partialPayload, okResult true finalPayload, errorDelivery] rfl).2.2.2.2.2.2⟩

/-- C17: whatever the libraries do, a delivery that is a transport failure or a
result of status other than `Ok`, arriving while the guard is open, sends one
reply and changes nothing but `hasReturnedResult`: `cmdResultMerged` after the
delivery is `cmdResultMerged` before it. -/
theorem error_delivery_leaves_accumulator (L : Lib) (cmd : Cmd) (s : CallbackState)
    (d : Delivery) (hopen : s.hasReturnedResult = false)
    (hkind : d.failureOrNonOk = true) :
    (callback L cmd s d).1 = { s with hasReturnedResult := true } ∧
    (callback L cmd s d).1.cmdResultMerged = s.cmdResultMerged ∧
    (callback L cmd s d).2.length = 1 := by
  cases d with
  | failure er =>
    cases er with
    | otherError msg => simp [callback, hopen]
    | TenError code msg =>
      by_cases hc : code = .ErrorCodeMsgNotConnected <;> simp [callback, hopen, hc]
  | result cr =>
    obtain ⟨sc, pj, ic⟩ := cr
    cases sc with
    | error e => simp [Delivery.failureOrNonOk] at hkind
    | ok code =>
      cases code with
      | StatusCodeOk => simp [Delivery.failureOrNonOk] at hkind
      | StatusCodeError => cases pj <;> simp [callback, hopen]

theorem error_delivery_leaves_accumulator_witness :
    (deliver goLib basicCmd (freshState basicCmd)
      [okResult false partialPayload]).1.hasReturnedResult = false ∧
    errorDelivery.failureOrNonOk = true ∧
    (callback goLib basicCmd
      (deliver goLib basicCmd (freshState basicCmd) [okResult false partialPayload]).1
      errorDelivery).1.cmdResultMerged =
      (deliver goLib basicCmd (freshState basicCmd)
        [okResult false partialPayload]).1.cmdResultMerged :=
  ⟨rfl, rfl,
    (error_delivery_leaves_accumulator goLib basicCmd
      (deliver goLib basicCmd (freshState basicCmd) [okResult false partialPayload]).1
      errorDelivery rfl rfl).2.1⟩

/-- C18: merging never drops a key.  After `Ok` non-completed results with flat,
null-free payloads `ms`, the keys of `cmdResultMerged` are exactly the keys of
the payloads in `ms`; once a flat, null-free completed result `mf` has been
applied after them, the keys of the reply are exactly the keys of `ms` and `mf`.
In particular the five partial results and the final result of
`MergeLogicTester` are answered with the keys `field_1` to `field_5`, `counter`,
`status` and `total_parts`, each once. -/
theorem merge_keeps_every_key (cmd : Cmd) (ms : List JObj) (mf : JObj)
    (hms : ∀ m ∈ ms, m.flat = true ∧ m.noNull = true)
    (hmf : mf.flat = true ∧ mf.noNull = true) (k : String) :
    (k ∈ (deliver goLib cmd (freshState cmd) (ms.map (okResult false))).1.cmdResultMerged.keys ↔
      ∃ m ∈ ms, k ∈ m.keys) ∧
    (∃ r, (deliver goLib cmd (freshState cmd)
        (ms.map (okResult false) ++ [okResult true mf])).2 = [r] ∧
      (k ∈ r.keys ↔ ∃ m ∈ ms ++ [mf], k ∈ m.keys)) ∧
    (∃ ks, (deliver goLib cmd (freshState cmd)
        ([1, 2, 3, 4, 5].map (fun i => okResult false (mergePartial i)) ++
          [okResult true mergeFinal])).2.map CmdResult.keys = [ks] ∧
      ks.Perm ["field_1", "field_2", "field_3", "field_4", "field_5", "counter", "status",
        "total_parts"]) := by
  refine ⟨?_, ?_, ?_⟩
  · rw [deliver_partials cmd ms (freshState cmd) rfl]
    have h := foldl_mergoMerge_keys ms (fun m hm => (hms m hm).1) JObj.nil k
    simpa [freshState, JObj.keys] using h
  · refine ⟨{ (freshState cmd).cmdResult with
        property := some (.obj ((ms ++ [mf]).foldl mergoMerge JObj.nil)) }, ?_, ?_⟩
    · rw [deliver_append, deliver_partials cmd ms (freshState cmd) rfl]
      simp [deliver, callback_final, freshState, NewCmdResult, List.foldl_append]
    · have hall : ∀ m ∈ ms ++ [mf], m.flat = true := by
        intro m hm
        rcases List.mem_append.mp hm with h | h
        · exact (hms m h).1
        · simpa [List.mem_singleton.mp h] using hmf.1
      have h := foldl_mergoMerge_keys (ms ++ [mf]) hall JObj.nil k
      simpa [CmdResult.keys, JObj.keys] using h
  · exact ⟨["counter", "field_1", "field_2", "field_3", "field_4", "field_5", "total_parts",
      "status"], rfl, by decide⟩

theorem merge_keeps_every_key_witness :
    (∀ m ∈ [mergePartial 1, mergePartial 2], m.flat = true ∧ m.noNull = true) ∧
    (mergeFinal.flat = true ∧ mergeFinal.noNull = true) ∧
    ("counter" ∈ (deliver goLib basicCmd (freshState basicCmd)
        ([mergePartial 1, mergePartial 2].map (okResult false))).1.cmdResultMerged.keys ↔
      ∃ m ∈ [mergePartial 1, mergePartial 2], "counter" ∈ m.keys) :=
  ⟨by decide, by decide,
    (merge_keeps_every_key basicCmd [mergePartial 1, mergePartial 2] mergeFinal
      (by decide) (by decide) "counter").1⟩

/-- With the libraries the extension is built with, a run of the callback that
sends a reply returns with `hasReturnedResult` set, in every state. -/
theorem callback_goLib_reply_closes (cmd : Cmd) (s : CallbackState) (d : Delivery)
    (hreply : (callback goLib cmd s d).2 ≠ []) :
    (callback goLib cmd s d).1.hasReturnedResult = true := by
  cases hflag : s.hasReturnedResult with
  | true =>
    rw [callback_closed goLib cmd s d hflag] at hreply
    exact absurd rfl hreply
  | false =>
    cases d with
    | failure er =>
      cases er with
      | otherError msg => simp [callback, hflag]
      | TenError code msg =>
        by_cases hc : code = .ErrorCodeMsgNotConnected <;> simp [callback, hflag, hc]
    | result cr =>
      obtain ⟨sc, pj, ic⟩ := cr
      cases sc with
      | error e => simp [callback, hflag]
      | ok code =>
        cases pj with
        | error e => simp [callback, hflag]
        | ok bytes =>
          cases code with
          | StatusCodeError => simp [callback, hflag]
          | StatusCodeOk =>
            cases hu : jsonUnmarshal bytes with
            | error e => simp [callback, hflag, goLib, hu]
            | ok m =>
              cases ic with
              | true => simp [callback, hflag, goLib, hu, jsonMarshal]
              | false => simp [callback, hflag, goLib, hu] at hreply

/-- C20: with the libraries the extension is built with, every run of the callback
that sends a reply returns with `hasReturnedResult` set to true, whatever the
state and the delivery; so after a delivery that produced a reply the next
delivery, and every sequence of further deliveries, is discarded: no reply is
sent and the captured variables stay as they are. -/
theorem reply_closes_the_guard (cmd : Cmd) (s : CallbackState) (d d' : Delivery)
    (ds : List Delivery) (hreply : (callback goLib cmd s d).2 ≠ []) :
    (callback goLib cmd s d).1.hasReturnedResult = true ∧
    (callback goLib cmd (callback goLib cmd s d).1 d').2 = [] ∧
    (callback goLib cmd (callback goLib cmd s d).1 d').1 = (callback goLib cmd s d).1 ∧
    (deliver goLib cmd (callback goLib cmd s d).1 ds).2 = [] ∧
    (deliver goLib cmd (callback goLib cmd s d).1 ds).1 = (callback goLib cmd s d).1 := by
  have hclosed := callback_goLib_reply_closes cmd s d hreply
  rw [callback_closed goLib cmd _ d' hclosed, deliver_closed goLib cmd _ ds hclosed]
  exact ⟨hclosed, rfl, rfl, rfl, rfl⟩

theorem reply_closes_the_guard_witness :
    (callback goLib basicCmd
      (deliver goLib basicCmd (freshState basicCmd) [okResult false partialPayload]).1
      (okBytes false (some (.num 1)))).2 ≠ [] ∧
    (callback goLib basicCmd
      (callback goLib basicCmd
        (deliver goLib basicCmd (freshState basicCmd) [okResult false partialPayload]).1
        (okBytes false (some (.num 1)))).1 errorDelivery).2 = [] :=
  ⟨by simp [callback, deliver, okBytes, okResult, goLib, jsonUnmarshal, freshState],
    (reply_closes_the_guard basicCmd
      (deliver goLib basicCmd (freshState basicCmd) [okResult false partialPayload]).1
      (okBytes false (some (.num 1))) errorDelivery []
      (by simp [callback, deliver, okBytes, okResult, goLib, jsonUnmarshal, freshState])).2.1⟩

/-! ## Concurrent invocations -/

/-- An invocation that passes the check and runs its body before any other step
does what one run of the callback does. -/
theorem afterGuard_of_open (L : Lib) (cmd : Cmd) (s : CallbackState) (d : Delivery)
    (hopen : s.hasReturnedResult = false) :
    afterGuard L cmd s d = callback L cmd s d := by
  have hs : { s with hasReturnedResult := false } = s := by
    cases s
    simp_all
  simp [afterGuard, hs, hopen]

/-- An invocation whose two steps are scheduled back to back does what one run of
the callback does on the shared variables. -/
theorem Concurrent.step_back_to_back (L : Lib) (cmd : Cmd) (ds : List Delivery)
    (c : Concurrent) (i : Nat) (d : Delivery)
    (hpc : c.pcs[i]? = some Pc.atGuard) (hd : ds[i]? = some d) :
    ((c.step L cmd ds i).step L cmd ds i).shared = (callback L cmd c.shared d).1 ∧
    ((c.step L cmd ds i).step L cmd ds i).sent = c.sent ++ (callback L cmd c.shared d).2 := by
  have hi : i < c.pcs.length := by
    rcases Nat.lt_or_ge i c.pcs.length with h | h
    · exact h
    · rw [List.getElem?_eq_none h] at hpc
      cases hpc
  cases hflag : c.shared.hasReturnedResult with
  | true =>
    have h₁ : c.step L cmd ds i = { c with pcs := c.pcs.set i .returned } := by
      simp [Concurrent.step, hpc, hd, hflag]
    have h₂ : ({ c with pcs := c.pcs.set i .returned } : Concurrent).step L cmd ds i =
        { c with pcs := c.pcs.set i .returned } := by
      simp [Concurrent.step, hd, hi]
    rw [h₁, h₂, callback_closed L cmd c.shared d hflag]
    simp
  | false =>
    have h₁ : c.step L cmd ds i = { c with pcs := c.pcs.set i .pastGuard } := by
      simp [Concurrent.step, hpc, hd, hflag]
    have h₂ : ({ c with pcs := c.pcs.set i .pastGuard } : Concurrent).step L cmd ds i =
        { shared := (afterGuard L cmd c.shared d).1
          pcs := (c.pcs.set i .pastGuard).set i .returned
          sent := c.sent ++ (afterGuard L cmd c.shared d).2 } := by
      simp [Concurrent.step, hd, hi]
    rw [h₁, h₂, afterGuard_of_open L cmd c.shared d hflag]
    simp

/-- C14, evaluated at the failing input: an `Ok` completed result and a transport
failure are delivered to two invocations of the callback of one request.  When
both invocations execute the check of line 58 before either runs on, both have
read `hasReturnedResult` as false, both reply (one with the merged result, one
with a fresh result of status `Error`) and both set the variable: two replies
are sent.  When the invocations run one after the other, one reply is sent. -/
theorem racing_invocations_both_reply :
    (interleave goLib basicCmd
      [okResult true finalPayload, .failure (.otherError "closed")] [0, 1]).pcs =
      [Pc.pastGuard, Pc.pastGuard] ∧
    (interleave goLib basicCmd
      [okResult true finalPayload, .failure (.otherError "closed")] [0, 1, 0, 1]).sent.map
        CmdResult.statusCode = [StatusCode.StatusCodeOk, StatusCode.StatusCodeError] ∧
    (interleave goLib basicCmd
      [okResult true finalPayload, .failure (.otherError "closed")]
      [0, 1, 0, 1]).shared.hasReturnedResult = true ∧
    (interleave goLib basicCmd
      [okResult true finalPayload, .failure (.otherError "closed")] [0, 0, 1, 1]).sent.map
        CmdResult.statusCode = [StatusCode.StatusCodeOk] := by
  exact ⟨rfl, rfl, rfl, rfl⟩

/-! ## Concurrent merges -/

/-- A run of the callback on a delivery that reaches line 149 with the guard open:
the merge, then the reply on a completed result. -/
theorem callback_of_mergeArgument (L : Lib) (cmd : Cmd) (s : CallbackState) (d : Delivery)
    (m : JObj) (hopen : s.hasReturnedResult = false) (hm : mergeArgument L d = some m) :
    callback L cmd s d =
      match L.merge s.cmdResultMerged m with
      | (merged, some _) =>
        ({ s with cmdResultMerged := merged }, [NewCmdResult .StatusCodeError cmd])
      | (merged, none) =>
        if d.isCompleted then
          match L.marshal merged with
          | .error _ =>
            ({ s with cmdResultMerged := merged, hasReturnedResult := true },
              [NewCmdResult .StatusCodeError cmd])
          | .ok bytes =>
            ({ s with hasReturnedResult := true, cmdResultMerged := merged,
                      cmdResult := s.cmdResult.SetPropertyFromJSONBytes bytes },
              [s.cmdResult.SetPropertyFromJSONBytes bytes])
        else
          ({ s with cmdResultMerged := merged }, []) := by
  cases d with
  | failure er => simp [mergeArgument] at hm
  | result cr =>
    obtain ⟨sc, pj, ic⟩ := cr
    cases sc with
    | error e => simp [mergeArgument] at hm
    | ok code =>
      cases pj with
      | error e => simp [mergeArgument] at hm
      | ok bytes =>
        cases code with
        | StatusCodeError => simp [mergeArgument] at hm
        | StatusCodeOk =>
          cases hu : L.unmarshal bytes with
          | error e => simp [mergeArgument, hu] at hm
          | ok m' =>
            simp [mergeArgument, hu] at hm
            subst hm
            rcases hmg : L.merge s.cmdResultMerged m' with ⟨merged, _ | e⟩
            · cases ic with
              | false => simp [callback, hopen, hu, hmg, Delivery.isCompleted]
              | true =>
                cases hms : L.marshal merged with
                | error e => simp [callback, hopen, hu, hmg, hms, Delivery.isCompleted]
                | ok b => simp [callback, hopen, hu, hmg, hms, Delivery.isCompleted]
            · simp [callback, hopen, hu, hmg]

/-- An invocation whose steps are scheduled back to back, with no step of another
invocation between them, does what one run of the callback does on the shared
variables. -/
theorem ConcurrentMerge.run_back_to_back (L : Lib) (cmd : Cmd) (ds : List Delivery)
    (c : ConcurrentMerge) (i : Nat) (d : Delivery)
    (hpc : c.points[i]? = some Point.atGuard) (hd : ds[i]? = some d) :
    ((((c.step L cmd ds i).step L cmd ds i).step L cmd ds i).step L cmd ds i).shared =
        (callback L cmd c.shared d).1 ∧
    ((((c.step L cmd ds i).step L cmd ds i).step L cmd ds i).step L cmd ds i).sent =
        c.sent ++ (callback L cmd c.shared d).2 ∧
    ((((c.step L cmd ds i).step L cmd ds i).step L cmd ds i).step L cmd ds i).points =
        c.points.set i Point.returned := by
  have hi : i < c.points.length := by
    rcases Nat.lt_or_ge i c.points.length with h | h
    · exact h
    · rw [List.getElem?_eq_none h] at hpc
      cases hpc
  have hdone : ∀ c' : ConcurrentMerge, c'.points[i]? = some Point.returned →
      c'.step L cmd ds i = c' := by
    intro c' h
    simp [ConcurrentMerge.step, h]
  cases hflag : c.shared.hasReturnedResult with
  | true =>
    have h₁ : c.step L cmd ds i = { c with points := c.points.set i .returned } := by
      simp [ConcurrentMerge.step, hpc, hd, hflag]
    have hr : ({ c with points := c.points.set i .returned } : ConcurrentMerge).points[i]? =
        some Point.returned := by
      simp [hi]
    rw [h₁, hdone _ hr, hdone _ hr, hdone _ hr, callback_closed L cmd c.shared d hflag]
    simp
  | false =>
    have h₁ : c.step L cmd ds i = { c with points := c.points.set i .pastGuard } := by
      simp [ConcurrentMerge.step, hpc, hd, hflag]
    cases hm : mergeArgument L d with
    | none =>
      have h₂ : ({ c with points := c.points.set i .pastGuard } : ConcurrentMerge).step
          L cmd ds i =
          { shared := (afterGuard L cmd c.shared d).1
            points := c.points.set i .returned
            sent := c.sent ++ (afterGuard L cmd c.shared d).2 } := by
        simp [ConcurrentMerge.step, hd, hi, hm]
      have hr : ({ shared := (afterGuard L cmd c.shared d).1
                   points := c.points.set i .returned
                   sent := c.sent ++ (afterGuard L cmd c.shared d).2 } :
          ConcurrentMerge).points[i]? = some Point.returned := by
        simp [hi]
      rw [h₁, h₂, hdone _ hr, hdone _ hr, afterGuard_of_open L cmd c.shared d hflag]
      exact ⟨rfl, rfl, rfl⟩
    | some m =>
      have h₂ : ({ c with points := c.points.set i .pastGuard } : ConcurrentMerge).step
          L cmd ds i = { c with points := c.points.set i .inMerge } := by
        simp [ConcurrentMerge.step, hd, hi, hm]
      rw [h₁, h₂, callback_of_mergeArgument L cmd c.shared d m hflag hm]
      rcases hmg : L.merge c.shared.cmdResultMerged m with ⟨merged, _ | e⟩
      · cases hc : d.isCompleted with
        | false =>
          have h₃ : ({ c with points := c.points.set i .inMerge } : ConcurrentMerge).step
              L cmd ds i =
              { c with shared := { c.shared with cmdResultMerged := merged }
                       points := c.points.set i .returned } := by
            simp [ConcurrentMerge.step, hd, hi, hm, hmg, hc]
          have hr : ({ c with shared := { c.shared with cmdResultMerged := merged }
                              points := c.points.set i .returned } :
              ConcurrentMerge).points[i]? = some Point.returned := by
            simp [hi]
          rw [h₃, hdone _ hr]
          simp
        | true =>
          have h₃ : ({ c with points := c.points.set i .inMerge } : ConcurrentMerge).step
              L cmd ds i =
              { c with shared := { c.shared with cmdResultMerged := merged }
                       points := c.points.set i .inMarshal } := by
            simp [ConcurrentMerge.step, hd, hi, hm, hmg, hc]
          rw [h₃]
          cases hms : L.marshal merged with
          | error e => simp [ConcurrentMerge.step, hd, hi, hms]
          | ok b => simp [ConcurrentMerge.step, hd, hi, hms]
      · have h₃ : ({ c with points := c.points.set i .inMerge } : ConcurrentMerge).step
            L cmd ds i =
            { shared := { c.shared with cmdResultMerged := merged }
              points := c.points.set i .returned
              sent := c.sent ++ [NewCmdResult .StatusCodeError cmd] } := by
          simp [ConcurrentMerge.step, hd, hi, hm, hmg]
        have hr : ({ shared := { c.shared with cmdResultMerged := merged }
                     points := c.points.set i .returned
                     sent := c.sent ++ [NewCmdResult .StatusCodeError cmd] } :
            ConcurrentMerge).points[i]? = some Point.returned := by
          simp [hi]
        rw [h₃, hdone _ hr]
        exact ⟨rfl, rfl, rfl⟩

/-- C15, evaluated at the input of `ConcurrentCallbackTester.OnCmd`: three `Ok`
results that all write the keys `result`, `data`, `status`, `message`, `stage` and
`timestamp`, the one of stage 2 final, are delivered to three invocations of the
callback of one request.  Nothing keeps a second invocation out of the call of
line 149 while a first one is inside it: after the steps 0, 1, 0, 1 the
invocations 0 and 1 are both inside `mergo.Merge` on the same map.  Nothing
keeps an invocation out of that call while another is inside `json.Marshal` of
line 162: after the steps 2, 2, 2, 0, 0 invocation 0 is inside the merge and
invocation 2 inside the marshal.  In both states the guard is still open.  When
invocation 0 leaves the merge before invocation 2 leaves the marshal, the one
reply carries the values of stage 0 and not those of the final result.  When the
invocations run one after the other, no two of them use the map at the same
time and the reply carries the values of stage 2. -/
theorem concurrent_merges_overlap :
    (interleaveMerge goLib basicCmd concurrentDeliveries [0, 1, 0, 1]).points =
      [Point.inMerge, Point.inMerge, Point.atGuard] ∧
    (interleaveMerge goLib basicCmd concurrentDeliveries [0, 1, 0, 1]).exclusive = false ∧
    (interleaveMerge goLib basicCmd concurrentDeliveries [2, 2, 2, 0, 0]).points =
      [Point.inMerge, Point.atGuard, Point.inMarshal] ∧
    (interleaveMerge goLib basicCmd concurrentDeliveries [2, 2, 2, 0, 0]).exclusive = false ∧
    (interleaveMerge goLib basicCmd concurrentDeliveries
      [0, 1, 0, 1]).shared.hasReturnedResult = false ∧
    (interleaveMerge goLib basicCmd concurrentDeliveries
      [2, 2, 2, 0, 0]).shared.hasReturnedResult = false ∧
    (interleaveMerge goLib basicCmd concurrentDeliveries [2, 2, 2, 0, 0, 0, 2]).sent.map
        (fun r => match r.property with
          | some (.obj m) => m.find "result"
          | _ => none) = [some (Json.str "stage_0_result")] ∧
    (List.range 11).map (fun n => (interleaveMerge goLib basicCmd concurrentDeliveries
        ([0, 0, 0, 1, 1, 1, 2, 2, 2, 2].take n)).exclusive) = List.replicate 11 true ∧
    (interleaveMerge goLib basicCmd concurrentDeliveries
      [0, 0, 0, 1, 1, 1, 2, 2, 2, 2]).sent.map
        (fun r => match r.property with
          | some (.obj m) => m.find "result"
          | _ => none) = [some (Json.str "stage_2_result")] := by
  refine ⟨rfl, rfl, rfl, rfl, rfl, rfl, ?_, ?_, ?_⟩
  · decide
  · decide
  · decide

/-! ## Lemmas on the merge of arbitrary payloads -/

theorem mergoMerge_cons (dst : JObj) (k : String) (v : Json) (rest : JObj) :
    mergoMerge dst (.cons k v rest) = (mergoMerge dst rest).set k (mergeValue (dst.find k) v) := by
  cases v with
  | obj o =>
    cases h : dst.find k with
    | none => simp [mergoMerge, mergeValue, h]
    | some w => cases w <;> simp [mergoMerge, mergeValue, h]
  | null | bool _ | num _ | str _ | arr _ => simp [mergoMerge, mergeValue]

/-- The value a key holds after one merge. -/
theorem mergoMerge_find (dst src : JObj) (k : String) :
    (mergoMerge dst src).find k =
      match src.find k with
      | none => dst.find k
      | some v => some (mergeValue (dst.find k) v) := by
  induction src using JObj.induct with
  | nil => simp [mergoMerge, JObj.find]
  | cons k₀ v₀ rest ih =>
    rw [mergoMerge_cons, JObj.find_set]
    by_cases h : k₀ = k
    · subst h
      simp [JObj.find]
    · simp [JObj.find, h, ih]

theorem JObj.set_of_find (m : JObj) (k : String) (w : Json) (h : m.find k = some w) :
    m.set k w = m := by
  induction m using JObj.induct with
  | nil => simp [JObj.find] at h
  | cons k₀ v₀ rest ih =>
    by_cases h₀ : k₀ = k
    · subst h₀
      simp [JObj.find] at h
      simp [JObj.set, h]
    · simp [JObj.find, h₀] at h
      simp [JObj.set, h₀, ih h]

/-- After a run of merges of payloads with pairwise disjoint keys, into a map that
has none of their keys, a key holds `v` exactly when one of the payloads, or the
initial map, holds `v` under it. -/
theorem foldl_mergoMerge_find_disjoint (ms : List JObj) (d₀ : JObj)
    (hdisj : ms.Pairwise JObj.keyDisjoint)
    (hnew : ∀ m ∈ ms, ∀ k, k ∈ m.keys → d₀.find k = none) (k : String) (v : Json) :
    (ms.foldl mergoMerge d₀).find k = some v ↔
      (∃ m ∈ ms, m.find k = some v) ∨ d₀.find k = some v := by
  induction ms generalizing d₀ with
  | nil => simp
  | cons m ms ih =>
    obtain ⟨hm, hms⟩ := List.pairwise_cons.mp hdisj
    have hnew' : ∀ m' ∈ ms, ∀ k', k' ∈ m'.keys → (mergoMerge d₀ m).find k' = none := by
      intro m' hm' k' hk'
      have h₁ : d₀.find k' = none := hnew m' (List.mem_cons_of_mem _ hm') k' hk'
      have h₂ : m.find k' = none := by
        cases hf : m.find k' with
        | none => rfl
        | some w =>
          have hk : k' ∈ m.keys := (JObj.mem_keys_iff m k').mpr (by simp [hf])
          exact absurd hk' (hm m' hm' k' hk)
      rw [mergoMerge_find, h₂]
      exact h₁
    rw [List.foldl_cons, ih (mergoMerge d₀ m) hms hnew', mergoMerge_find]
    cases hf : m.find k with
    | none =>
      constructor
      · rintro (⟨m', hm', h⟩ | h)
        · exact Or.inl ⟨m', List.mem_cons_of_mem _ hm', h⟩
        · exact Or.inr h
      · rintro (⟨m', hm', h⟩ | h)
        · rcases List.mem_cons.mp hm' with rfl | hmem
          · rw [hf] at h
            cases h
          · exact Or.inl ⟨m', hmem, h⟩
        · exact Or.inr h
    | some w =>
      have hk : k ∈ m.keys := (JObj.mem_keys_iff m k).mpr (by simp [hf])
      have hd : d₀.find k = none := hnew m (List.mem_cons_self _ _) k hk
      have hothers : ∀ m' ∈ ms, m'.find k = none := by
        intro m' hm'
        cases hf' : m'.find k with
        | none => rfl
        | some w' =>
          have hk' : k ∈ m'.keys := (JObj.mem_keys_iff m' k).mpr (by simp [hf'])
          exact absurd hk' (hm m' hm' k hk)
      have hval : mergeValue none w = w := by
        cases w <;> rfl
      simp only [hd, hval]
      constructor
      · rintro (⟨m', hm', h⟩ | h)
        · rw [hothers m' hm'] at h
          cases h
        · exact Or.inl ⟨m, List.mem_cons_self _ _, by rw [hf]; exact h⟩
      · rintro (⟨m', hm', h⟩ | h)
        · rcases List.mem_cons.mp hm' with rfl | hmem
          · rw [hf] at h
            exact Or.inr h
          · rw [hothers m' hmem] at h
            cases h
        · cases h

/-- Merging payloads with pairwise disjoint keys into the empty map gives, at
every key, the same value for every arrival order. -/
theorem foldl_mergoMerge_perm (ms ms' : List JObj) (hperm : ms.Perm ms')
    (hdisj : ms.Pairwise JObj.keyDisjoint) (k : String) :
    (ms.foldl mergoMerge JObj.nil).find k = (ms'.foldl mergoMerge JObj.nil).find k := by
  have hsymm : ∀ a b : JObj, a.keyDisjoint b → b.keyDisjoint a := by
    intro a b h k' hb ha
    exact h k' ha hb
  have hdisj' : ms'.Pairwise JObj.keyDisjoint :=
    hperm.pairwise hdisj (fun {a b} h => hsymm a b h)
  have h₁ := foldl_mergoMerge_find_disjoint ms JObj.nil hdisj (fun _ _ _ _ => rfl) k
  have h₂ := foldl_mergoMerge_find_disjoint ms' JObj.nil hdisj' (fun _ _ _ _ => rfl) k
  apply Option.ext
  intro v
  rw [Option.mem_def, Option.mem_def, h₁ v, h₂ v]
  constructor
  · rintro (⟨m, hm, h⟩ | h)
    · exact Or.inl ⟨m, hperm.mem_iff.mp hm, h⟩
    · exact Or.inr h
  · rintro (⟨m, hm, h⟩ | h)
    · exact Or.inl ⟨m, hperm.mem_iff.mpr hm, h⟩
    · exact Or.inr h

/-- Induction along the entries of a map, with the induction hypothesis also for
the object stored directly under the first key. -/
theorem JObj.deepInduct {motive : JObj → Prop} (nil : motive .nil)
    (cons : ∀ k v rest, (∀ o, v = Json.obj o → motive o) → motive rest →
      motive (.cons k v rest)) : ∀ m, motive m
  | .nil => nil
  | .cons k (.obj o) rest =>
    cons k (.obj o) rest
      (fun o' h => by
        injection h with h'
        subst h'
        exact JObj.deepInduct nil cons o)
      (JObj.deepInduct nil cons rest)
  | .cons k .null rest =>
    cons k .null rest (fun _ h => by cases h) (JObj.deepInduct nil cons rest)
  | .cons k (.bool b) rest =>
    cons k (.bool b) rest (fun _ h => by cases h) (JObj.deepInduct nil cons rest)
  | .cons k (.num n) rest =>
    cons k (.num n) rest (fun _ h => by cases h) (JObj.deepInduct nil cons rest)
  | .cons k (.str t) rest =>
    cons k (.str t) rest (fun _ h => by cases h) (JObj.deepInduct nil cons rest)
  | .cons k (.arr a) rest =>
    cons k (.arr a) rest (fun _ h => by cases h) (JObj.deepInduct nil cons rest)

theorem JObj.wellFormed_cons (k : String) (v : Json) (rest : JObj)
    (h : (JObj.cons k v rest).wellFormed = true) :
    k ∉ rest.keys ∧ rest.wellFormed = true ∧ ∀ o, v = Json.obj o → o.wellFormed = true := by
  cases v <;> simp_all [JObj.wellFormed]

theorem JObj.wellFormed_nodup (m : JObj) (h : m.wellFormed = true) : m.keys.Nodup := by
  induction m using JObj.induct with
  | nil => simp [JObj.keys]
  | cons k v rest ih =>
    obtain ⟨hk, hrest, -⟩ := JObj.wellFormed_cons k v rest h
    simp [JObj.keys, hk, ih hrest]

/-- Merging `t` into a map that already holds, under every key of `t`, a value
that the arriving value leaves as it is, changes nothing. -/
theorem mergoMerge_absorb (D t : JObj) (hnodup : t.keys.Nodup)
    (h : ∀ k v, t.find k = some v → ∃ w, D.find k = some w ∧ mergeValue (some w) v = w) :
    mergoMerge D t = D := by
  induction t using JObj.induct with
  | nil => simp [mergoMerge]
  | cons k v rest ih =>
    have hk : k ∉ rest.keys := by
      simp [JObj.keys] at hnodup
      exact hnodup.1
    have hrest : rest.keys.Nodup := by
      simp [JObj.keys] at hnodup
      exact hnodup.2
    have htail : mergoMerge D rest = D := by
      apply ih hrest
      intro k' v' hf
      have hk' : k' ∈ rest.keys := (JObj.mem_keys_iff rest k').mpr (by simp [hf])
      have hne : ¬ k = k' := by
        rintro rfl
        exact hk hk'
      exact h k' v' (by simp [JObj.find, hne, hf])
    obtain ⟨w, hw, hval⟩ := h k v (by simp [JObj.find])
    rw [mergoMerge_cons, htail, hw, hval]
    exact JObj.set_of_find D k w hw

/-- A well-formed map all of whose values are settled is left as it is by a
merge over itself, and merging it twice is merging it once. -/
theorem mergoMerge_idem_of (s : JObj) (hwf : s.wellFormed = true)
    (hval : ∀ k v, s.find k = some v → v.settled) :
    mergoMerge s s = s ∧ ∀ d, mergoMerge (mergoMerge d s) s = mergoMerge d s := by
  have hnodup := JObj.wellFormed_nodup s hwf
  refine ⟨?_, ?_⟩
  · apply mergoMerge_absorb s s hnodup
    intro k v hf
    exact ⟨v, hf, (hval k v hf).1⟩
  · intro d
    apply mergoMerge_absorb (mergoMerge d s) s hnodup
    intro k v hf
    refine ⟨mergeValue (d.find k) v, ?_, (hval k v hf).2 (d.find k)⟩
    rw [mergoMerge_find, hf]

theorem JObj.values_settled : ∀ s : JObj, s.wellFormed = true →
    ∀ k v, s.find k = some v → v.settled := by
  intro s
  induction s using JObj.deepInduct with
  | nil =>
    intro _ k v hf
    simp [JObj.find] at hf
  | cons k₀ v₀ rest iho ihr =>
    intro hwf k v hf
    obtain ⟨-, hrest, hobj⟩ := JObj.wellFormed_cons k₀ v₀ rest hwf
    by_cases hk : k₀ = k
    · have hv : v₀ = v := by simpa [JObj.find, hk] using hf
      subst hv
      cases v₀ with
      | obj o =>
        have hwo : o.wellFormed = true := hobj o rfl
        obtain ⟨hself, hidem⟩ := mergoMerge_idem_of o hwo (iho o rfl hwo)
        refine ⟨by simp [mergeValue, hself], ?_⟩
        intro old
        cases old with
        | none => simp [mergeValue, hself]
        | some w => cases w <;> simp [mergeValue, hself, hidem]
      | null | bool _ | num _ | str _ | arr _ =>
        exact ⟨rfl, fun old => by cases old <;> rfl⟩
    · have hf' : rest.find k = some v := by simpa [JObj.find, hk] using hf
      exact ihr hrest k v hf'

/-- Merging a well-formed payload twice is merging it once. -/
theorem mergoMerge_idem (s : JObj) (hwf : s.wellFormed = true) (d : JObj) :
    mergoMerge (mergoMerge d s) s = mergoMerge d s :=
  (mergoMerge_idem_of s hwf (JObj.values_settled s hwf)).2 d

/-! ## The claims, concluded -/

/-- C21: when `SendCmdEx` itself returns an error for a `ten_event` command, `OnCmd`
sends one reply, a fresh result of status `Error`, whatever the error is, a
not-connected `TenError` included, and no later delivery adds a reply; the same
not-connected error delivered through the callback of a forwarded command is
answered with the result built with `StatusCodeOk`. -/
theorem send_error_is_answered_with_error (L : Lib) (cmd : Cmd) (e : GoError)
    (ds : List Delivery) (msg : String) (hname : cmd.GetName = .ok cmdTenEvent) :
    replies (OnCmd cmd (some e)).effects = [NewCmdResult .StatusCodeError cmd] ∧
    (NewCmdResult .StatusCodeError cmd).statusCode = .StatusCodeError ∧
    replies (session L cmd (some e) ds) = [NewCmdResult .StatusCodeError cmd] ∧
    replies (OnCmd cmd (some (.TenError .ErrorCodeMsgNotConnected msg))).effects =
      [NewCmdResult .StatusCodeError cmd] ∧
    replies (session L cmd none [.failure (.TenError .ErrorCodeMsgNotConnected msg)]) =
      [NewCmdResult .StatusCodeOk cmd] := by
  have hd := deliver_closed L cmd { freshState cmd with hasReturnedResult := true } ds rfl
  refine ⟨?_, rfl, ?_, ?_, ?_⟩
  · simp [OnCmd, hname, replies]
  · simp [session, OnCmd, hname, replies_append, replies_map_ReturnResult, replies, hd]
  · simp [OnCmd, hname, replies]
  · simp [session, OnCmd, hname, replies_append, replies_map_ReturnResult, replies, deliver,
      callback, freshState]

theorem send_error_is_answered_with_error_witness :
    basicCmd.GetName = .ok cmdTenEvent ∧
    replies (OnCmd basicCmd
      (some (.TenError .ErrorCodeMsgNotConnected "not connected"))).effects =
      [NewCmdResult .StatusCodeError basicCmd] :=
  ⟨rfl, (send_error_is_answered_with_error goLib basicCmd
    (.TenError .ErrorCodeMsgNotConnected "not connected") [] "not connected" rfl).1⟩

/-- C22: for `Ok` non-completed results whose payloads have pairwise disjoint key
sets, the merged state does not depend on the arrival order (two maps being the
same when they hold the same value under every key): for every permutation the
value of every key in `cmdResultMerged` is the same, and so is the value of
every key in the properties of the reply to a completed result that follows. -/
theorem merge_order_independent (cmd : Cmd) (ms ms' : List JObj) (mf : JObj)
    (hperm : ms.Perm ms') (hdisj : ms.Pairwise JObj.keyDisjoint) (k : String) :
    (deliver goLib cmd (freshState cmd) (ms.map (okResult false))).1.cmdResultMerged.find k =
      (deliver goLib cmd (freshState cmd) (ms'.map (okResult false))).1.cmdResultMerged.find k ∧
    ∃ merged merged',
      (deliver goLib cmd (freshState cmd)
        (ms.map (okResult false) ++ [okResult true mf])).2.map CmdResult.property =
        [some (Json.obj merged)] ∧
      (deliver goLib cmd (freshState cmd)
        (ms'.map (okResult false) ++ [okResult true mf])).2.map CmdResult.property =
        [some (Json.obj merged')] ∧
      merged.find k = merged'.find k := by
  have hk := foldl_mergoMerge_perm ms ms' hperm hdisj k
  refine ⟨?_, mergoMerge (ms.foldl mergoMerge JObj.nil) mf,
    mergoMerge (ms'.foldl mergoMerge JObj.nil) mf, ?_, ?_, ?_⟩
  · rw [deliver_partials cmd ms (freshState cmd) rfl, deliver_partials cmd ms' (freshState cmd) rfl]
    simpa [freshState] using hk
  · rw [deliver_append, deliver_partials cmd ms (freshState cmd) rfl]
    simp [deliver, callback_final, freshState, NewCmdResult]
  · rw [deliver_append, deliver_partials cmd ms' (freshState cmd) rfl]
    simp [deliver, callback_final, freshState, NewCmdResult]
  · rw [mergoMerge_find, mergoMerge_find, hk]

theorem merge_order_independent_witness :
    [JObj.cons "field_1" (.str "value_1") .nil, JObj.cons "field_2" (.str "value_2") .nil].Perm
      [JObj.cons "field_2" (.str "value_2") .nil, JObj.cons "field_1" (.str "value_1") .nil] ∧
    [JObj.cons "field_1" (.str "value_1") .nil,
      JObj.cons "field_2" (.str "value_2") .nil].Pairwise JObj.keyDisjoint ∧
    (deliver goLib basicCmd (freshState basicCmd)
        ([JObj.cons "field_1" (.str "value_1") .nil,
          JObj.cons "field_2" (.str "value_2") .nil].map
          (okResult false))).1.cmdResultMerged.find "field_1" =
      (deliver goLib basicCmd (freshState basicCmd)
        ([JObj.cons "field_2" (.str "value_2") .nil,
          JObj.cons "field_1" (.str "value_1") .nil].map
          (okResult false))).1.cmdResultMerged.find "field_1" :=
  ⟨List.Perm.swap _ _ _, by simp [JObj.keyDisjoint, JObj.keys],
    (merge_order_independent basicCmd
      [JObj.cons "field_1" (.str "value_1") .nil, JObj.cons "field_2" (.str "value_2") .nil]
      [JObj.cons "field_2" (.str "value_2") .nil, JObj.cons "field_1" (.str "value_1") .nil]
      mergeFinal (List.Perm.swap _ _ _) (by simp [JObj.keyDisjoint, JObj.keys]) "field_1").1⟩

/-- C23: applying a result is idempotent.  In every state of a request, delivering
the same `Ok` non-completed result, whose payload is a map (no key twice), twice
in a row sends no reply either time and leaves the captured variables,
`cmdResultMerged` among them, as they are after delivering it once. -/
theorem repeated_result_is_idempotent (cmd : Cmd) (s : CallbackState) (m : JObj)
    (hwf : m.wellFormed = true) :
    (callback goLib cmd s (okResult false m)).2 = [] ∧
    (callback goLib cmd (callback goLib cmd s (okResult false m)).1 (okResult false m)).2 = [] ∧
    (callback goLib cmd (callback goLib cmd s (okResult false m)).1
      (okResult false m)).1.cmdResultMerged =
      (callback goLib cmd s (okResult false m)).1.cmdResultMerged ∧
    (callback goLib cmd (callback goLib cmd s (okResult false m)).1 (okResult false m)).1 =
      (callback goLib cmd s (okResult false m)).1 := by
  cases hflag : s.hasReturnedResult with
  | true =>
    have h := callback_closed goLib cmd s (okResult false m) hflag
    rw [h]
    simp [h]
  | false =>
    have h₁ : callback goLib cmd s (okResult false m) =
        ({ s with cmdResultMerged := mergoMerge s.cmdResultMerged m }, []) :=
      callback_merge_only cmd s (some (.obj m)) m hflag rfl
    have h₂ : callback goLib cmd { s with cmdResultMerged := mergoMerge s.cmdResultMerged m }
        (okResult false m) =
        ({ s with cmdResultMerged := mergoMerge (mergoMerge s.cmdResultMerged m) m }, []) :=
      callback_merge_only cmd { s with cmdResultMerged := mergoMerge s.cmdResultMerged m }
        (some (.obj m)) m hflag rfl
    rw [h₁]
    simp only [h₂, mergoMerge_idem m hwf s.cmdResultMerged, and_self]

theorem repeated_result_is_idempotent_witness :
    partialPayload.wellFormed = true ∧
    (callback goLib basicCmd
        (callback goLib basicCmd (freshState basicCmd) (okResult false partialPayload)).1
        (okResult false partialPayload)).1.cmdResultMerged =
      (callback goLib basicCmd (freshState basicCmd)
        (okResult false partialPayload)).1.cmdResultMerged :=
  ⟨by decide,
    (repeated_result_is_idempotent basicCmd (freshState basicCmd) partialPayload
      (by decide)).2.2.1⟩

/-- C24, the claim as stated fails: a result of status `Error` whose properties
cannot be read is answered with a fresh result of status `Error`, which is not
the result built at line 52 (that one has status `Ok`). -/
theorem nonOk_reply_is_fresh_when_unreadable :
    (callback goLib basicCmd (freshState basicCmd)
      (.result { GetStatusCode := .ok .StatusCodeError
                 GetPropertyToJSONBytes := .error "get property failed"
                 IsCompleted := true })).2 = [NewCmdResult .StatusCodeError basicCmd] ∧
    (NewCmdResult .StatusCodeError basicCmd).statusCode ≠
      (freshState basicCmd).cmdResult.statusCode := by
  exact ⟨rfl, by decide⟩

/-- C24, amended: when no reply has been sent yet, a delivery whose status is not
`Ok` is answered with one reply that carries none of the properties of the
delivered result, the extension having written no property on it.  When the
properties of the delivered result can be read, the reply is the result built
at line 52 from the original command, whatever those properties are; when
reading them fails, it is a fresh result of status `Error` built from the
original command. -/
theorem nonOk_reply_carries_nothing_delivered (cmd : Cmd) (ds : List Delivery)
    (cr : DeliveredResult)
    (hnone : (deliver goLib cmd (freshState cmd) ds).2 = [])
    (hstatus : cr.GetStatusCode = .ok .StatusCodeError) :
    (∀ bytes, cr.GetPropertyToJSONBytes = .ok bytes →
      (callback goLib cmd (deliver goLib cmd (freshState cmd) ds).1 (.result cr)).2 =
        [NewCmdResult .StatusCodeOk cmd]) ∧
    (∀ e, cr.GetPropertyToJSONBytes = .error e →
      (callback goLib cmd (deliver goLib cmd (freshState cmd) ds).1 (.result cr)).2 =
        [NewCmdResult .StatusCodeError cmd]) ∧
    (callback goLib cmd (deliver goLib cmd (freshState cmd) ds).1 (.result cr)).2.length = 1 ∧
    ∀ r ∈ (callback goLib cmd (deliver goLib cmd (freshState cmd) ds).1 (.result cr)).2,
      r.property = none := by
  obtain ⟨ho, hr⟩ := open_of_no_reply cmd ds hnone
  obtain ⟨sc, pj, ic⟩ := cr
  simp only at hstatus
  subst hstatus
  cases pj with
  | error e => simp [callback, ho, NewCmdResult]
  | ok bytes => simp [callback, ho, hr, NewCmdResult]

theorem nonOk_reply_carries_nothing_delivered_witness :
    (deliver goLib basicCmd (freshState basicCmd) [okResult false partialPayload]).2 = [] ∧
    (callback goLib basicCmd
        (deliver goLib basicCmd (freshState basicCmd) [okResult false partialPayload]).1
        (.result { GetStatusCode := .ok .StatusCodeError
                   GetPropertyToJSONBytes :=
                     .ok (some (.obj (.cons "error" (.str "simulated_error") .nil)))
                   IsCompleted := true })).2.length = 1 :=
  ⟨rfl, (nonOk_reply_carries_nothing_delivered basicCmd [okResult false partialPayload]
    { GetStatusCode := .ok .StatusCodeError
      GetPropertyToJSONBytes := .ok (some (.obj (.cons "error" (.str "simulated_error") .nil)))
      IsCompleted := true } rfl rfl).2.2.1⟩

/-! ## Lemmas on the frames of all requests -/

theorem frames_set_same {α : Type} (xs : List α) (a : Nat) (x : α) (h : xs[a]? = some x) :
    xs.set a x = xs := by
  induction xs generalizing a with
  | nil => simp at h
  | cons y ys ih =>
    cases a with
    | zero =>
      simp at h
      simp [h]
    | succ n =>
      simp at h
      simp [ih n h]

/-- The closure of frame `a`, run on the frames of all requests, does to frame `a`
what `callback` does to the variables of that frame, and sends the same replies. -/
theorem callbackIn_eq (L : Lib) (a : Nat) (fs : List Frame) (d : Delivery) (f : Frame)
    (hf : fs[a]? = some f) :
    callbackIn L a fs d =
      (fs.set a (f.withVars (callback L f.cmd f.vars d).1), (callback L f.cmd f.vars d).2) := by
  have hself : fs.set a f = fs := frames_set_same fs a f hf
  have heta : f.withVars f.vars = f := by
    cases f
    rfl
  cases hflag : f.hasReturnedResult with
  | true =>
    have hc : callback L f.cmd f.vars d = (f.vars, []) :=
      callback_closed L f.cmd f.vars d (by simp [Frame.vars, hflag])
    simp [callbackIn, hf, hflag, hc, heta, hself]
  | false =>
    cases d with
    | failure er =>
      cases er with
      | otherError msg =>
        simp [callbackIn, callback, hf, hflag, Frame.vars, Frame.withVars]
      | TenError code msg =>
        by_cases hc : code = .ErrorCodeMsgNotConnected <;>
          simp [callbackIn, callback, hf, hflag, hc, Frame.vars, Frame.withVars]
    | result cr =>
      obtain ⟨sc, pj, ic⟩ := cr
      cases sc with
      | error e => simp [callbackIn, callback, hf, hflag, Frame.vars, Frame.withVars]
      | ok code =>
        cases pj with
        | error e => simp [callbackIn, callback, hf, hflag, Frame.vars, Frame.withVars]
        | ok bytes =>
          cases code with
          | StatusCodeError =>
            simp [callbackIn, callback, hf, hflag, Frame.vars, Frame.withVars]
          | StatusCodeOk =>
            cases hu : L.unmarshal bytes with
            | error e =>
              simp [callbackIn, callback, hf, hflag, hu, Frame.vars, Frame.withVars]
            | ok m =>
              rcases hmg : L.merge f.cmdResultMerged m with ⟨merged, _ | e⟩
              · cases ic with
                | false =>
                  simp [callbackIn, callback, hf, hflag, hu, hmg, Frame.vars, Frame.withVars]
                | true =>
                  cases hms : L.marshal merged with
                  | error e =>
                    simp [callbackIn, callback, hf, hflag, hu, hmg, hms, Frame.vars,
                      Frame.withVars]
                  | ok b =>
                    simp [callbackIn, callback, hf, hflag, hu, hmg, hms, Frame.vars,
                      Frame.withVars]
              · simp [callbackIn, callback, hf, hflag, hu, hmg, Frame.vars, Frame.withVars]

/-- A run of the closure of frame `a` leaves every other frame as it is. -/
theorem callbackIn_other (L : Lib) (a b : Nat) (fs : List Frame) (d : Delivery)
    (hab : a ≠ b) : (callbackIn L a fs d).1[b]? = fs[b]? := by
  cases hf : fs[a]? with
  | none => simp [callbackIn, hf]
  | some f =>
    rw [callbackIn_eq L a fs d f hf]
    simp [List.getElem?_set_ne hab]

theorem repliesOf_append (a : Nat) (xs ys : List (Nat × CmdResult)) :
    repliesOf a (xs ++ ys) = repliesOf a xs ++ repliesOf a ys := by
  induction xs with
  | nil => rfl
  | cons x xs ih =>
    obtain ⟨b, r⟩ := x
    by_cases h : b = a <;> simp [repliesOf, h, ih]

theorem repliesOf_map (a b : Nat) (rs : List CmdResult) :
    repliesOf a (rs.map (fun r => (b, r))) = if b = a then rs else [] := by
  by_cases h : b = a
  · subst h
    induction rs with
    | nil => simp [repliesOf]
    | cons r rs ih =>
      simp only [if_true] at ih
      simp [repliesOf, ih]
  · induction rs with
    | nil => simp [repliesOf]
    | cons r rs ih =>
      simp only [h, if_false] at ih
      simp [repliesOf, h, ih]

/-- Over any sequence of deliveries to any closures, the frame of a request ends
with the variables, and the request gets the replies, of the run of its own
closure on the deliveries addressed to it. -/
theorem runDeliveries_frame (L : Lib) (xs : List (Nat × Delivery)) (fs : List Frame) (a : Nat)
    (f : Frame) (hf : fs[a]? = some f) :
    (runDeliveries L fs xs).1[a]? =
        some (f.withVars (deliver L f.cmd f.vars (deliveriesTo a xs)).1) ∧
      repliesOf a (runDeliveries L fs xs).2 = (deliver L f.cmd f.vars (deliveriesTo a xs)).2 := by
  induction xs generalizing fs f with
  | nil =>
    have heta : f.withVars f.vars = f := by
      cases f
      rfl
    simp [runDeliveries, deliveriesTo, deliver, repliesOf, hf, heta]
  | cons x xs ih =>
    obtain ⟨b, d⟩ := x
    by_cases hb : b = a
    · subst hb
      have hlt : b < fs.length := by
        rcases Nat.lt_or_ge b fs.length with h | h
        · exact h
        · rw [List.getElem?_eq_none h] at hf
          cases hf
      have hstep := callbackIn_eq L b fs d f hf
      have hnext : (callbackIn L b fs d).1[b]? =
          some (f.withVars (callback L f.cmd f.vars d).1) := by
        rw [hstep]
        simp [hlt]
      obtain ⟨h₁, h₂⟩ := ih (callbackIn L b fs d).1
        (f.withVars (callback L f.cmd f.vars d).1) hnext
      have hcmd : (f.withVars (callback L f.cmd f.vars d).1).cmd = f.cmd := rfl
      have hvars : (f.withVars (callback L f.cmd f.vars d).1).vars =
          (callback L f.cmd f.vars d).1 := rfl
      rw [hcmd, hvars] at h₁ h₂
      refine ⟨?_, ?_⟩
      · simp only [runDeliveries, deliveriesTo, if_true, deliver]
        rw [h₁]
        rfl
      · simp only [runDeliveries, deliveriesTo, if_true, deliver, repliesOf_append,
          repliesOf_map, h₂]
        rw [hstep]
    · have hnext : (callbackIn L b fs d).1[a]? = some f := by
        rw [callbackIn_other L b a fs d hb, hf]
      obtain ⟨h₁, h₂⟩ := ih (callbackIn L b fs d).1 f hnext
      refine ⟨?_, ?_⟩
      · simpa [runDeliveries, deliveriesTo, hb] using h₁
      · simp only [runDeliveries, deliveriesTo, hb, if_false, repliesOf_append, repliesOf_map,
          List.nil_append]
        exact h₂

/-- The method `OnCmd` on the frames of all requests makes the calls of `OnCmd`
and adds, as a new frame, the variables of the closure `OnCmd` leaves behind. -/
theorem OnCmdIn_eq_OnCmd (fs : List Frame) (cmd : Cmd) (sendErr : Option GoError) :
    (OnCmdIn fs cmd sendErr).2 = (OnCmd cmd sendErr).effects ∧
    (OnCmdIn fs cmd sendErr).1 =
      fs ++ ((OnCmd cmd sendErr).request.map (fun s =>
        ({ cmd := cmd, hasReturnedResult := s.hasReturnedResult,
           cmdResultMerged := s.cmdResultMerged, cmdResult := s.cmdResult } : Frame))).toList := by
  cases hn : cmd.GetName with
  | error e => simp [OnCmdIn, OnCmd, hn]
  | ok name =>
    by_cases h : name = cmdTenEvent
    · cases sendErr <;> simp [OnCmdIn, OnCmd, hn, h, freshState]
    · simp [OnCmdIn, OnCmd, hn, h]

/-- C25: requests are isolated.  Each `OnCmd` call for a `ten_event` command
declares its variables in a frame of its own, after the frames that exist and
without touching them, with `hasReturnedResult` false and `cmdResultMerged`
empty.  One run of a closure leaves every frame other than its own as it is.
For every sequence `xs` of deliveries to the closures of all requests, in any
order, the variables and the replies of each of the two requests are those of
the run of its own closure on its own deliveries alone, and so are the variables
of every request that existed before; so two sequences with the same deliveries
to the first request give it the same variables and replies, whatever the
second command is and whatever is delivered to other closures. -/
theorem requests_are_isolated (L : Lib) (fs : List Frame) (cmdA cmdB : Cmd)
    (xs : List (Nat × Delivery))
    (hA : cmdA.GetName = .ok cmdTenEvent) (hB : cmdB.GetName = .ok cmdTenEvent) :
    (OnCmdIn (OnCmdIn fs cmdA none).1 cmdB none).1 =
      fs ++ [{ cmd := cmdA, hasReturnedResult := false, cmdResultMerged := JObj.nil,
               cmdResult := NewCmdResult .StatusCodeOk cmdA },
             { cmd := cmdB, hasReturnedResult := false, cmdResultMerged := JObj.nil,
               cmdResult := NewCmdResult .StatusCodeOk cmdB }] ∧
    (∀ (gs : List Frame) (a b : Nat) (d : Delivery), a ≠ b →
      (callbackIn L a gs d).1[b]? = gs[b]?) ∧
    ((runDeliveries L (OnCmdIn (OnCmdIn fs cmdA none).1 cmdB none).1 xs).1[fs.length]?).map
        Frame.vars =
      some (deliver L cmdA (freshState cmdA) (deliveriesTo fs.length xs)).1 ∧
    repliesOf fs.length (runDeliveries L (OnCmdIn (OnCmdIn fs cmdA none).1 cmdB none).1 xs).2 =
      (deliver L cmdA (freshState cmdA) (deliveriesTo fs.length xs)).2 ∧
    ((runDeliveries L (OnCmdIn (OnCmdIn fs cmdA none).1 cmdB none).1 xs).1[fs.length + 1]?).map
        Frame.vars =
      some (deliver L cmdB (freshState cmdB) (deliveriesTo (fs.length + 1) xs)).1 ∧
    repliesOf (fs.length + 1)
        (runDeliveries L (OnCmdIn (OnCmdIn fs cmdA none).1 cmdB none).1 xs).2 =
      (deliver L cmdB (freshState cmdB) (deliveriesTo (fs.length + 1) xs)).2 ∧
    (∀ (c : Nat) (f : Frame), fs[c]? = some f →
      (runDeliveries L (OnCmdIn (OnCmdIn fs cmdA none).1 cmdB none).1 xs).1[c]? =
        some (f.withVars (deliver L f.cmd f.vars (deliveriesTo c xs)).1)) ∧
    (∀ (cmdB' : Cmd) (ys : List (Nat × Delivery)), cmdB'.GetName = .ok cmdTenEvent →
      deliveriesTo fs.length ys = deliveriesTo fs.length xs →
      (runDeliveries L (OnCmdIn (OnCmdIn fs cmdA none).1 cmdB' none).1 ys).1[fs.length]? =
          (runDeliveries L (OnCmdIn (OnCmdIn fs cmdA none).1 cmdB none).1 xs).1[fs.length]? ∧
        repliesOf fs.length
            (runDeliveries L (OnCmdIn (OnCmdIn fs cmdA none).1 cmdB' none).1 ys).2 =
          repliesOf fs.length
            (runDeliveries L (OnCmdIn (OnCmdIn fs cmdA none).1 cmdB none).1 xs).2) := by
  have hstart : ∀ c : Cmd, c.GetName = .ok cmdTenEvent →
      (OnCmdIn (OnCmdIn fs cmdA none).1 c none).1 =
        fs ++ [{ cmd := cmdA, hasReturnedResult := false, cmdResultMerged := JObj.nil,
                 cmdResult := NewCmdResult .StatusCodeOk cmdA },
               { cmd := c, hasReturnedResult := false, cmdResultMerged := JObj.nil,
                 cmdResult := NewCmdResult .StatusCodeOk c }] := by
    intro c hc
    simp [OnCmdIn, hA, hc]
  have hAat : ∀ c : Cmd,
      (fs ++ [({ cmd := cmdA, hasReturnedResult := false, cmdResultMerged := JObj.nil,
                 cmdResult := NewCmdResult .StatusCodeOk cmdA } : Frame),
               { cmd := c, hasReturnedResult := false, cmdResultMerged := JObj.nil,
                 cmdResult := NewCmdResult .StatusCodeOk c }])[fs.length]? =
        some { cmd := cmdA, hasReturnedResult := false, cmdResultMerged := JObj.nil,
               cmdResult := NewCmdResult .StatusCodeOk cmdA } := by
    intro c
    rw [List.getElem?_append_right (Nat.le_refl _)]
    simp
  have hBat :
      (fs ++ [({ cmd := cmdA, hasReturnedResult := false, cmdResultMerged := JObj.nil,
                 cmdResult := NewCmdResult .StatusCodeOk cmdA } : Frame),
               { cmd := cmdB, hasReturnedResult := false, cmdResultMerged := JObj.nil,
                 cmdResult := NewCmdResult .StatusCodeOk cmdB }])[fs.length + 1]? =
        some { cmd := cmdB, hasReturnedResult := false, cmdResultMerged := JObj.nil,
               cmdResult := NewCmdResult .StatusCodeOk cmdB } := by
    rw [List.getElem?_append_right (Nat.le_succ _)]
    simp
  have hold : ∀ (c : Nat) (f : Frame), fs[c]? = some f →
      (fs ++ [({ cmd := cmdA, hasReturnedResult := false, cmdResultMerged := JObj.nil,
                 cmdResult := NewCmdResult .StatusCodeOk cmdA } : Frame),
               { cmd := cmdB, hasReturnedResult := false, cmdResultMerged := JObj.nil,
                 cmdResult := NewCmdResult .StatusCodeOk cmdB }])[c]? = some f := by
    intro c f hf
    have hlt : c < fs.length := by
      rcases Nat.lt_or_ge c fs.length with h | h
      · exact h
      · rw [List.getElem?_eq_none h] at hf
        cases hf
    rw [List.getElem?_append_left hlt, hf]
  rw [hstart cmdB hB]
  obtain ⟨a₁, a₂⟩ := runDeliveries_frame L xs _ fs.length _ (hAat cmdB)
  obtain ⟨b₁, b₂⟩ := runDeliveries_frame L xs _ (fs.length + 1) _ hBat
  refine ⟨rfl, fun gs a b d hab => callbackIn_other L a b gs d hab, ?_, a₂, ?_, b₂, ?_, ?_⟩
  · rw [a₁]
    rfl
  · rw [b₁]
    rfl
  · intro c f hf
    exact (runDeliveries_frame L xs _ c f (hold c f hf)).1
  · intro cmdB' ys hB' hys
    rw [hstart cmdB' hB']
    obtain ⟨c₁, c₂⟩ := runDeliveries_frame L ys _ fs.length _ (hAat cmdB')
    rw [c₁, c₂, a₁, a₂, hys]
    exact ⟨rfl, rfl⟩

theorem requests_are_isolated_witness :
    basicCmd.GetName = .ok cmdTenEvent ∧ secondCmd.GetName = .ok cmdTenEvent ∧
    repliesOf 0
        (runDeliveries goLib (OnCmdIn (OnCmdIn [] basicCmd none).1 secondCmd none).1
          [(0, okResult false partialPayload), (1, errorDelivery),
           (0, okResult true finalPayload)]).2 =
      (deliver goLib basicCmd (freshState basicCmd)
        (deliveriesTo 0 [(0, okResult false partialPayload), (1, errorDelivery),
          (0, okResult true finalPayload)])).2 :=
  ⟨rfl, rfl, (requests_are_isolated goLib [] basicCmd secondCmd
    [(0, okResult false partialPayload), (1, errorDelivery),
     (0, okResult true finalPayload)] rfl rfl).2.2.2.1⟩

/-- C26: when the name of the inbound command cannot be read, `OnCmd` makes exactly
one call on the environment, a `ReturnResult` of a fresh result of status
`Error`; it makes no `SendCmdEx` call and creates no closure, whatever name
dispatch would have done, so no delivery adds anything. -/
theorem unreadable_name_is_rejected (L : Lib) (cmd : Cmd) (sendErr : Option GoError)
    (ds : List Delivery) (e : String) (hname : cmd.GetName = .error e) :
    (OnCmd cmd sendErr).effects = [.ReturnResult (NewCmdResult .StatusCodeError cmd)] ∧
    (NewCmdResult .StatusCodeError cmd).statusCode = .StatusCodeError ∧
    forwards (OnCmd cmd sendErr).effects = [] ∧
    (OnCmd cmd sendErr).request = none ∧
    replies (session L cmd sendErr ds) = [NewCmdResult .StatusCodeError cmd] ∧
    forwards (session L cmd sendErr ds) = [] := by
  simp [OnCmd, session, hname, forwards, replies, NewCmdResult]

theorem unreadable_name_is_rejected_witness :
    namelessCmd.GetName = .error "get name failed" ∧
    (OnCmd namelessCmd none).effects =
      [.ReturnResult (NewCmdResult .StatusCodeError namelessCmd)] :=
  ⟨rfl, (unreadable_name_is_rejected goLib namelessCmd none [] "get name failed" rfl).1⟩

end EventBus

namespace Config

theorem digitChar_toNat (d : Nat) (hd : d < 10) :
    48 ≤ (Nat.digitChar d).toNat ∧ (Nat.digitChar d).toNat ≤ 57 ∧
      (Nat.digitChar d).toNat - 48 = d ∧ Nat.digitChar d ≠ '-' ∧ Nat.digitChar d ≠ '+' := by
  interval_cases d <;> decide

theorem digitsValue_toDigitsCore (fuel : Nat) :
    ∀ (n : Nat) (acc : List Char), n < fuel →
      digitsValue 0 (Nat.toDigitsCore 10 fuel n acc) = digitsValue n acc := by
  induction fuel with
  | zero => intro n acc h; omega
  | succ fuel ih =>
    intro n acc h
    obtain ⟨h₁, h₂, h₃, -, -⟩ := digitChar_toNat (n % 10) (Nat.mod_lt _ (by decide))
    by_cases hq : n / 10 = 0
    · have hn : n % 10 = n := by omega
      rw [hn] at h₁ h₂ h₃
      simp [Nat.toDigitsCore, hq, digitsValue, h₁, h₂, h₃, hn]
    · have hlt : n / 10 < fuel := by omega
      have hn : n / 10 * 10 + n % 10 = n := by omega
      simp [Nat.toDigitsCore, hq, ih (n / 10) _ hlt, digitsValue, h₁, h₂, h₃, hn]

theorem toDigitsCore_head (fuel : Nat) :
    ∀ (n : Nat) (acc : List Char), n < fuel →
      ∃ d cs, d < 10 ∧ Nat.toDigitsCore 10 fuel n acc = Nat.digitChar d :: cs := by
  induction fuel with
  | zero => intro n acc h; omega
  | succ fuel ih =>
    intro n acc h
    by_cases hq : n / 10 = 0
    · exact ⟨n % 10, acc, Nat.mod_lt _ (by decide), by simp [Nat.toDigitsCore, hq]⟩
    · have hlt : n / 10 < fuel := by omega
      obtain ⟨d, cs, hd, he⟩ := ih (n / 10) (Nat.digitChar (n % 10) :: acc) hlt
      exact ⟨d, cs, hd, by simp [Nat.toDigitsCore, hq, he]⟩

/-- The decimal text of a natural number is read back as that number. -/
theorem decimalValue_toString (n : Nat) : decimalValue (toString n) = some (n : Int) := by
  have hlist : (toString n).toList = Nat.toDigitsCore 10 (n + 1) n [] := by
    simp [toString, Nat.repr, Nat.toDigits, List.asString]
  obtain ⟨d, cs, hd, he⟩ := toDigitsCore_head (n + 1) n [] (Nat.lt_succ_self n)
  have hv := digitsValue_toDigitsCore (n + 1) n [] (Nat.lt_succ_self n)
  obtain ⟨-, -, -, hm, hp⟩ := digitChar_toNat d hd
  rw [he] at hv
  unfold decimalValue
  rw [hlist, he]
  have hv' : digitsValue 0 (Nat.digitChar d :: cs) = some n := by
    rw [hv]
    rfl
  simp only [hm, hp, if_false, hv']
  rfl

theorem getMaxGeminiWorkerCount_of_value (s : String) (n : Int)
    (hval : decimalValue s = some n) (hpos : 0 < n) (hrange : n < 2 ^ 63) :
    getMaxGeminiWorkerCount (some s) = n := by
  have hne : s ≠ "" := by
    rintro rfl
    simp [decimalValue] at hval
  have hrange' : n < 9223372036854775808 := by
    norm_num at hrange
    exact hrange
  have h₁ : ¬ (n < -9223372036854775808 ∨ 9223372036854775808 ≤ n) := by omega
  simp [getMaxGeminiWorkerCount, hne, Atoi, hval, h₁, hpos]

theorem getMaxGeminiWorkerCount_of_other (s : String)
    (hother : ∀ n, decimalValue s = some n → n ≤ 0 ∨ 2 ^ 63 ≤ n) :
    getMaxGeminiWorkerCount (some s) = 3 := by
  by_cases hne : s = ""
  · simp [getMaxGeminiWorkerCount, hne]
  · cases hval : decimalValue s with
    | none => simp [getMaxGeminiWorkerCount, hne, Atoi, hval]
    | some n =>
      by_cases hr : n < -9223372036854775808 ∨ 9223372036854775808 ≤ n
      · simp [getMaxGeminiWorkerCount, hne, Atoi, hval, hr]
      · have hn : ¬ 0 < n := by
          rcases hother n hval with h | h
          · omega
          · norm_num at h
            omega
        simp [getMaxGeminiWorkerCount, hne, Atoi, hval, hr, hn]

/-- C16, the claim as stated fails: `9223372036854775808` is the decimal text of a
positive integer, and for it the function returns 3, not that integer. -/
theorem worker_count_of_text_beyond_int :
    (0 : Int) < ((9223372036854775808 : Nat) : Int) ∧
    getMaxGeminiWorkerCount (some (toString (9223372036854775808 : Nat))) = 3 ∧
    getMaxGeminiWorkerCount (some (toString (9223372036854775808 : Nat))) ≠
      ((9223372036854775808 : Nat) : Int) := by
  decide

/-- C16, amended: the function returns 3 when the variable is unset or empty; it
returns `n` when the value is the decimal text of an integer `n` with
`0 < n < 2^63` (the plain decimal text of `n`, or any text `s` that
`strconv.Atoi` reads as `n`, such as one with a sign `+` or leading zeros); and it
returns 3 for every other value: a text that is not a decimal text, zero, a
negative integer, or an integer of `2^63` or more. -/
theorem worker_count_from_environment (s : String) (n : Nat)
    (hpos : 0 < n) (hrange : n < 2 ^ 63) :
    getMaxGeminiWorkerCount none = 3 ∧
    getMaxGeminiWorkerCount (some "") = 3 ∧
    getMaxGeminiWorkerCount (some (toString n)) = n ∧
    (decimalValue s = some (n : Int) → getMaxGeminiWorkerCount (some s) = n) ∧
    ((∀ m, decimalValue s = some m → m ≤ 0 ∨ 2 ^ 63 ≤ m) →
      getMaxGeminiWorkerCount (some s) = 3) := by
  have hpos' : (0 : Int) < (n : Int) := by exact_mod_cast hpos
  have hrange' : (n : Int) < 2 ^ 63 := by exact_mod_cast hrange
  refine ⟨by decide, by decide, ?_, ?_, ?_⟩
  · exact getMaxGeminiWorkerCount_of_value _ _ (decimalValue_toString n) hpos' hrange'
  · intro hval
    exact getMaxGeminiWorkerCount_of_value s _ hval hpos' hrange'
  · exact getMaxGeminiWorkerCount_of_other s

theorem worker_count_from_environment_witness :
    (0 < 7) ∧ (7 < 2 ^ 63) ∧
    getMaxGeminiWorkerCount (some (toString 7)) = ((7 : Nat) : Int) ∧
    (decimalValue "+007" = some ((7 : Nat) : Int) →
      getMaxGeminiWorkerCount (some "+007") = ((7 : Nat) : Int)) :=
  ⟨by decide, by decide,
    (worker_count_from_environment "+007" 7 (by decide) (by decide)).2.2.1,
    (worker_count_from_environment "+007" 7 (by decide) (by decide)).2.2.2.1⟩

/-- C27: for every value of the environment variable, set or not, the function
returns an integer strictly greater than zero. -/
theorem worker_count_is_positive (env : Option String) :
    0 < getMaxGeminiWorkerCount env := by
  unfold getMaxGeminiWorkerCount
  simp only
  split
  · split
    · split
      · assumption
      · decide
    · decide
  · decide

end Config

namespace TranscriberDemo

theorem String.length_pos_iff (s : String) : 0 < s.length ↔ s ≠ "" := by
  cases s with
  | mk data =>
    cases data with
    | nil => simp [String.length]
    | cons c cs =>
      simp only [String.length, List.length_cons, Nat.zero_lt_succ, true_iff]
      intro h
      have hd := congrArg String.data h
      simp at hd

/-- C19: on every path (whether or not the `.env` file loads, whether or not the
property file can be read) `OnConfigure` calls `OnConfigureDone` exactly once, as
its last call; it calls `InitPropertyFromJSONBytes` with `b` exactly when
`PropertyFilePath` is not empty and reading that file succeeds with the bytes `b`,
and it makes at most one such call. -/
theorem configure_done_once (cfg : appConfig) (dotenvErr : Option String)
    (ReadFile : String → Except String (List UInt8)) :
    (OnConfigure cfg dotenvErr ReadFile).count Call.OnConfigureDone = 1 ∧
    (OnConfigure cfg dotenvErr ReadFile).getLast? = some Call.OnConfigureDone ∧
    (∀ b, Call.InitPropertyFromJSONBytes b ∈ OnConfigure cfg dotenvErr ReadFile ↔
      (cfg.PropertyFilePath ≠ "" ∧ ReadFile cfg.PropertyFilePath = .ok b)) ∧
    ((OnConfigure cfg dotenvErr ReadFile).filter
      (fun c => match c with
        | Call.InitPropertyFromJSONBytes _ => true
        | _ => false)).length ≤ 1 := by
  have hlen := String.length_pos_iff cfg.PropertyFilePath
  by_cases hp : 0 < cfg.PropertyFilePath.length
  · have hne : cfg.PropertyFilePath ≠ "" := hlen.mp hp
    cases dotenvErr <;> cases hr : ReadFile cfg.PropertyFilePath <;>
      simp [OnConfigure, hp, hr, hne, List.count_cons, List.filter] <;>
      intro b <;> exact eq_comm
  · have hempty : ¬ cfg.PropertyFilePath ≠ "" := fun h => hp (hlen.mpr h)
    cases dotenvErr <;> simp [OnConfigure, hp, hempty, List.count_cons, List.filter]

end TranscriberDemo
